import Mathlib

/-!
Verification of the Voice-Controlled-OS-Shell core: a shallow embedding of
the command parser (src/parser.py), the sandbox path resolver (src/state.py),
the command executor (src/executor.py) and the delete-confirmation state
machine (src/main.py), together with theorems settling the specification
claims about them.

Strings are modelled as lists of characters (`Str`).  The Python regular
expressions used by the parser fall into a small fragment (literals,
character classes, greedy `*`/`+`/`?`, lazy `+?`, alternation, named groups,
end anchor); that fragment is embedded as the inductive type `Regex` with a
backtracking matcher `runRe` whose result list mirrors Python's backtracking
preference order, so that the head of the list is exactly the match
`re.match` produces.
-/

abbrev Str := List Char

/-- Named capture groups produced by a match, in order of completion. -/
abbrev Caps := List (String × Str)

/-- Python's `\s` class over the ASCII range (the shell lowercases input,
so only ASCII whitespace is relevant): space, tab, newline, CR, VT, FF. -/
def isSpacePy (c : Char) : Bool :=
  c = ' ' || c = '\t' || c = '\n' || c = '\r' || c = '\x0b' || c = '\x0c'

/-- Python's `\w` class restricted to ASCII (input is lowercased text). -/
def isWordChar (c : Char) : Bool :=
  c.isAlpha || c.isDigit || c = '_'

/-- `str.lower()` on a single character. -/
def lowerChar (c : Char) : Char := c.toLower

/-- `str.strip()`: drop leading and trailing whitespace. -/
def trimPy (s : Str) : Str :=
  ((s.dropWhile isSpacePy).reverse.dropWhile isSpacePy).reverse

/-- `str.lower()` over a whole string. -/
def lowerStr (s : Str) : Str := s.map lowerChar

/-- The regular-expression fragment used by `CommandParser.patterns`.
Quantifiers only ever apply to single-character classes in the source
patterns, which the constructors reflect. -/
inductive Regex where
  /-- a literal sequence of characters -/
  | lit (w : Str)
  /-- greedy `[c]*` over a character class -/
  | star (p : Char → Bool)
  /-- greedy `[c]+` over a character class -/
  | plus (p : Char → Bool)
  /-- lazy `[c]+?` over a character class -/
  | plusLazy (p : Char → Bool)
  /-- greedy `(?:r)?` -/
  | opt (r : Regex)
  /-- alternation `a|b` (left preferred) -/
  | alt (a b : Regex)
  /-- concatenation -/
  | seq (a b : Regex)
  /-- named capture group `(?P<name>r)` -/
  | cap (name : String) (r : Regex)
  /-- the `$` anchor (input is stripped, so `$` means end of string) -/
  | eos

/-- All splits `(pre, rest)` of `s` with `pre` a run of class characters,
ordered longest `pre` first (greedy backtracking order). -/
def splitsGreedy (p : Char → Bool) : Str → List (Str × Str)
  | [] => [([], [])]
  | c :: s =>
      if p c then
        (splitsGreedy p s).map (fun x => (c :: x.1, x.2)) ++ [([], c :: s)]
      else
        [([], c :: s)]

/-- Backtracking matcher: all ways `r` can match a prefix of `s`, as pairs
of (remaining suffix, captures), in Python's backtracking preference order.
`re.match(r, s)` succeeds iff the list is nonempty, and its group values
are those of the head. -/
def runRe : Regex → Str → List (Str × Caps)
  | .lit w, s => if w.isPrefixOf s then [(s.drop w.length, [])] else []
  | .star p, s => (splitsGreedy p s).map (fun x => (x.2, []))
  | .plus p, s =>
      ((splitsGreedy p s).filter (fun x => !x.1.isEmpty)).map (fun x => (x.2, []))
  | .plusLazy p, s =>
      ((splitsGreedy p s).filter (fun x => !x.1.isEmpty)).reverse.map
        (fun x => (x.2, []))
  | .opt r, s => runRe r s ++ [(s, [])]
  | .alt a b, s => runRe a s ++ runRe b s
  | .seq a b, s =>
      (runRe a s).flatMap (fun m => (runRe b m.1).map (fun x => (x.1, m.2 ++ x.2)))
  | .cap n r, s =>
      (runRe r s).map (fun x => (x.1, x.2 ++ [(n, s.take (s.length - x.1.length))]))
  | .eos, s => if s.isEmpty then [(s, [])] else []

/-- `re.match` succeeds (a match starting at position 0, any end). -/
def reMatches (r : Regex) (s : Str) : Bool := !(runRe r s).isEmpty

/-- `r` can match the empty string. -/
def nullable : Regex → Bool
  | .lit w => w.isEmpty
  | .star _ => true
  | .plus _ => false
  | .plusLazy _ => false
  | .opt _ => true
  | .alt a b => nullable a || nullable b
  | .seq a b => nullable a && nullable b
  | .cap _ r => nullable r
  | .eos => true

/-- Conservative first-character test: if a match of `r` consumes at least
one character, the first consumed character satisfies `firstOK r`. -/
def firstOK : Regex → Char → Bool
  | .lit w, c => match w with | [] => false | d :: _ => d = c
  | .star p, c => p c
  | .plus p, c => p c
  | .plusLazy p, c => p c
  | .opt r, c => firstOK r c
  | .alt a b, c => firstOK a c || firstOK b c
  | .seq a b, c => firstOK a c || (nullable a && firstOK b c)
  | .cap _ r, c => firstOK r c
  | .eos, _ => false

/-! ### The command patterns of `CommandParser` (src/parser.py lines 26-100) -/

/-- Literal word helper: a quoted literal inside a pattern. -/
def wlit (t : String) : Regex := .lit t.data

/-- The pattern fragment regex `\s*`. -/
def ws0 : Regex := .star isSpacePy

/-- The pattern fragment regex `\s+`. -/
def ws1 : Regex := .plus isSpacePy

/-- Concatenation of a list of fragments. -/
def catRe (l : List Regex) : Regex := l.foldr .seq (.lit [])

/-- Left-preferring alternation of one-or-more branches. -/
def alts (hd : Regex) (tl : List Regex) : Regex := tl.foldl .alt hd

/-- The leading filler group `(?:please\s+)?` shared by the rules. -/
def pleaseOpt : Regex := .opt (catRe [wlit "please", ws1])

/-- The OPEN_APP rule's filler group `(?:please\s+|would\s+you\s+kindly\s+)?`. -/
def politeKindlyOpt : Regex :=
  .opt (.alt (catRe [wlit "please", ws1])
             (catRe [wlit "would", ws1, wlit "you", ws1, wlit "kindly", ws1]))

/-- The character class `[\w\-. ]` used for bare names. -/
def nameCls (c : Char) : Bool := isWordChar c || c = '-' || c = '.' || c = ' '

/-- The character class `[\w\-. /\\]` used for paths. -/
def pathCls (c : Char) : Bool := nameCls c || c = '/' || c = '\\'

/-- The class `\d`. -/
def digitCls (c : Char) : Bool := c.isDigit

/-- The class `.` (any character but a newline). -/
def dotCls (c : Char) : Bool := c != '\n'

/-- A single-quote character (as used by the single-quoted APPEND/GREP rules). -/
def sqChar : Char := Char.ofNat 39

/-- Parsed intents: the dictionaries the handlers of src/parser.py build,
as a tagged variant (field order follows the handlers). -/
inductive Intent where
  | help
  | exitI
  | list
  | mkdir (name : String)
  | mkfile (name : String)
  | delete (kind : String) (name : String)
  | cd (path : String)
  | pwd
  | openApp (app : String)
  | search (query : String)
  | rename (old : String) (new : String)
  | history (count : Nat)
  | copy (src : String) (dst : String)
  | move (src : String) (dst : String)
  | read (name : String)
  | append (name : String) (text : String)
  | grep (query : String)
  | size (name : String)
  | tree (depth : Nat)
  | touch (name : String)
  | clearHistory
  | recents (count : Nat)
  | stats
  | openFile (name : String)
  | unknown (raw : String)
  deriving DecidableEq, Repr

/-- Rule identity tags, in source order of `CommandParser.patterns`. -/
inductive RuleTag where
  | help | exitR | listR | mkdir | mkfile | delete
  | cdExplicit | cdBack | pwd
  | openAppR | openGeneric
  | search | rename | history | copy | move | read
  | appendDq | appendSq | grepDq | grepSq
  | size | tree | touch | clearHistory | recents | stats
  | openFileExplicit
  deriving DecidableEq, Repr

/-- One `(pattern, handler)` pair of `CommandParser.patterns`. -/
structure Rule where
  tag : RuleTag
  re : Regex
  build : Caps → Intent

/-- match.group(name): the capture of a named group, if it participated. -/
def capGet (caps : Caps) (n : String) : Option Str :=
  (caps.find? (fun x => x.1 = n)).map (fun x => x.2)

/-- int() on a digit string. -/
def natOfDigits (s : Str) : Nat :=
  s.foldl (fun a c => 10 * a + (c.toNat - 48)) 0

/-- A captured field, `.strip()`-ed, as a string (absent group gives ""). -/
def field (caps : Caps) (n : String) : String :=
  String.mk (trimPy ((capGet caps n).getD []))

/-- The numeric count/depth fields: absent group means the default. -/
def numField (caps : Caps) (n : String) (dflt : Nat) : Nat :=
  match capGet caps n with
  | some d => natOfDigits d
  | none => dflt

/-- The parser's own whitelist `CommandParser.ALLOWED_APPS`
(src/parser.py lines 16-23). -/
def PARSER_ALLOWED_APPS : List (String × String) :=
  [("calculator", "calc"), ("calc", "calc"), ("notepad", "notepad"),
   ("paint", "mspaint"), ("browser", "explorer"), ("explorer", "explorer")]

/-- Association-list lookup (`dict.get`). -/
def dictGet (l : List (String × String)) (k : String) : Option String :=
  (l.find? (fun x => x.1 = k)).map (fun x => x.2)

/-- `_handle_delete`: folder/directory collapse to folder, else file. -/
def buildDelete (caps : Caps) : Intent :=
  let kind := if field caps "kind" = "folder" || field caps "kind" = "directory"
              then "folder" else "file"
  .delete kind (field caps "name")

/-- `_handle_open_app`: map through the parser whitelist, unknown app
tokens pass through unchanged. -/
def buildOpenApp (caps : Caps) : Intent :=
  let app := field caps "app"
  .openApp ((dictGet PARSER_ALLOWED_APPS app).getD app)

/-- Replace every whole-word occurrence (Python `\b` boundaries) of the
word `c0 :: ws` in the scanned string by `repl`; `prevWord` says whether
the character just before the scan position is a word character. -/
def subWordAux (c0 : Char) (ws : Str) (repl : Str) : Nat → Bool → Str → Str
  | 0, _, _ => []
  | _ + 1, _, [] => []
  | fuel + 1, prevWord, c :: rest =>
      if !prevWord && List.isPrefixOf (c0 :: ws) (c :: rest)
         && ((rest.drop ws.length).isEmpty
             || !isWordChar ((rest.drop ws.length).headD ' ') ) then
        repl ++ subWordAux c0 ws repl fuel true (rest.drop ws.length)
      else
        c :: subWordAux c0 ws repl fuel (isWordChar c) rest

/-- `re.sub(r'\bword\b', repl, s)` for a nonempty word; the fuel argument
equals the scanned string's length, which every step strictly consumes. -/
def subWord (word : String) (repl : String) (s : Str) : Str :=
  match word.data with
  | [] => s
  | c0 :: ws => subWordAux c0 ws repl.data s.length false s

/-- `_handle_open_file`: spoken-punctuation normalization then OPEN_FILE. -/
def buildOpenFile (caps : Caps) : Intent :=
  let name := trimPy ((capGet caps "name").getD [])
  let name := subWord "dot" "." name
  let name := subWord "period" "." name
  let name := subWord "underscore" "_" name
  let name := subWord "dash" "-" name
  let name := subWord "slash" "/" name
  let name := subWord "backslash" "\\" name
  .openFile (String.mk name)

/-- `_handle_append`: strip one symmetric pair of quotes if present. -/
def buildAppend (caps : Caps) : Intent :=
  let text := (capGet caps "text").getD []
  let dq : Char := '"'
  let text :=
    if (text.headD ' ' = dq && text.getLastD ' ' = dq && text.length ≥ 2)
       || (text.headD ' ' = sqChar && text.getLastD ' ' = sqChar && text.length ≥ 2)
    then (text.drop 1).dropLast else text
  .append (field caps "name") (String.mk text)

/-- Rule 1 body (after the filler): HELP. -/
def bodyHelp : Regex :=
  catRe [.opt (catRe [wlit "show", ws1]),
         alts (wlit "help")
           [catRe [wlit "what", ws1, wlit "can", ws1, wlit "you", ws1, wlit "do"],
            catRe [wlit "show", ws1, wlit "available", ws1, wlit "commands"]],
         ws0, .eos]

/-- Rule 2 body: EXIT. -/
def bodyExit : Regex :=
  catRe [alts (wlit "exit") [wlit "quit", wlit "goodbye", wlit "bye"], ws0, .eos]

/-- Rule 3, first top-level alternative (no end anchor in the source):
`(?:show|list)(?:\s+all)?\s+(?:files?|contents?)`. -/
def bodyListA : Regex :=
  catRe [.alt (wlit "show") (wlit "list"), .opt (catRe [ws1, wlit "all"]), ws1,
         .alt (catRe [wlit "file", .opt (wlit "s")])
              (catRe [wlit "content", .opt (wlit "s")])]

/-- Rule 3, second top-level alternative (not guarded by the filler):
`(?:show\s+me\s+the\s+contents?|what\s+files?\s+are\s+here)\s*$`. -/
def bodyListB : Regex :=
  catRe [.alt (catRe [wlit "show", ws1, wlit "me", ws1, wlit "the", ws1,
                      wlit "content", .opt (wlit "s")])
              (catRe [wlit "what", ws1, wlit "file", .opt (wlit "s"), ws1,
                      wlit "are", ws1, wlit "here"]),
         ws0, .eos]

/-- Rule 4 body: MKDIR. -/
def bodyMkdir : Regex :=
  catRe [.alt (wlit "create") (wlit "make"), .opt (catRe [ws1, wlit "a"]),
         .opt (catRe [ws1, wlit "new"]), ws1,
         .alt (wlit "folder") (wlit "directory"),
         .opt (catRe [ws1, wlit "called"]), ws1,
         .cap "name" (.plus nameCls), ws0, .eos]

/-- Rule 5 body: MKFILE. -/
def bodyMkfile : Regex :=
  catRe [.alt (wlit "create") (wlit "make"), .opt (catRe [ws1, wlit "a"]),
         .opt (catRe [ws1, wlit "new"]), ws1, wlit "file",
         .opt (catRe [ws1, wlit "called"]), ws1,
         .cap "name" (.plus nameCls), ws0, .eos]

/-- Rule 6 body: DELETE. -/
def bodyDelete : Regex :=
  catRe [.alt (wlit "delete") (wlit "remove"), ws1,
         .opt (catRe [wlit "the", ws1]),
         .cap "kind" (alts (wlit "file") [wlit "folder", wlit "directory"]), ws1,
         .opt (catRe [wlit "called", ws1]),
         .cap "name" (.plus nameCls), ws0, .eos]

/-- Rule 7 body: CD (explicit forms). -/
def bodyCd : Regex :=
  catRe [alts (catRe [wlit "change", ws1, wlit "directory", ws1, wlit "to"])
           [catRe [wlit "cd", ws1, wlit "to"],
            catRe [wlit "go", ws1, wlit "to"],
            catRe [wlit "move", ws1, wlit "to"],
            catRe [wlit "switch", ws1, wlit "to", ws1, wlit "directory"]],
         .opt (catRe [ws1, wlit "folder"]), ws1,
         .cap "path" (.plus pathCls), ws0, .eos]

/-- Rule 8 body: go back / up. -/
def bodyBack : Regex :=
  catRe [alts (catRe [wlit "go", ws1, wlit "back"])
           [catRe [wlit "go", ws1, wlit "up"], wlit "back"], ws0, .eos]

/-- Rule 9 body: PWD. -/
def bodyPwd : Regex :=
  catRe [alts (catRe [wlit "where", ws1, wlit "am", ws1, wlit "i"])
           [catRe [wlit "show", ws1, .opt (catRe [wlit "current", ws1]),
                   .opt (catRe [wlit "working", ws1]), wlit "directory"],
            catRe [wlit "what", ws1, wlit "folder", ws1, wlit "am", ws1,
                   wlit "i", ws1, wlit "in"],
            catRe [wlit "current", ws1, wlit "location"],
            catRe [wlit "could", ws1, wlit "you", ws1, wlit "show", ws1,
                   wlit "me", ws1, wlit "where", ws1, wlit "i", ws1, wlit "am"]],
         ws0, .eos]

/-- Rule 10 body: OPEN_APP. -/
def bodyOpenApp : Regex :=
  catRe [alts (wlit "open") [wlit "launch", wlit "start"],
         .opt (catRe [ws1, wlit "the"]), ws1,
         .cap "app" (alts (wlit "calculator")
           [wlit "calc", wlit "notepad", wlit "paint", wlit "browser",
            wlit "explorer"]),
         ws0, .eos]

/-- Rule 11 body: generic OPEN by path or name. -/
def bodyOpenGeneric : Regex :=
  catRe [wlit "open", ws1, .cap "name" (.plus pathCls), ws0, .eos]

/-- Rule 12 body: SEARCH. -/
def bodySearch : Regex :=
  catRe [alts (wlit "search") [wlit "find", catRe [wlit "look", ws1, wlit "for"]],
         ws1, .cap "query" (.plus nameCls), ws0, .eos]

/-- Rule 13 body: RENAME. -/
def bodyRename : Regex :=
  catRe [wlit "rename", ws1, .cap "old" (.plus nameCls), ws1,
         .alt (wlit "to") (wlit "as"), ws1, .cap "new" (.plus nameCls), ws0, .eos]

/-- Rule 14 body: HISTORY. -/
def bodyHistory : Regex :=
  catRe [wlit "history", .opt (catRe [ws1, .cap "count" (.plus digitCls)]),
         ws0, .eos]

/-- Rule 15 body: COPY. -/
def bodyCopy : Regex :=
  catRe [wlit "copy", ws1, .cap "src" (.plus pathCls), ws1,
         .alt (wlit "to") (wlit "into"), ws1, .cap "dst" (.plus pathCls),
         ws0, .eos]

/-- Rule 16 body: MOVE. -/
def bodyMove : Regex :=
  catRe [wlit "move", ws1, .cap "src" (.plus pathCls), ws1,
         .alt (wlit "to") (wlit "into"), ws1, .cap "dst" (.plus pathCls),
         ws0, .eos]

/-- Rule 17 body: READ. -/
def bodyRead : Regex :=
  catRe [alts (wlit "read") [wlit "show", wlit "display"], ws1, wlit "file",
         ws1, .cap "name" (.plus pathCls), ws0, .eos]

/-- Rule 18 body: APPEND, double-quoted text. -/
def bodyAppendDq : Regex :=
  catRe [.alt (wlit "append") (wlit "write"), ws1, .lit ['"'],
         .cap "text" (.plusLazy dotCls), .lit ['"'], ws1,
         .alt (wlit "to") (wlit "into"), ws1, wlit "file", ws1,
         .cap "name" (.plus pathCls), ws0, .eos]

/-- Rule 19 body: APPEND, single-quoted text. -/
def bodyAppendSq : Regex :=
  catRe [.alt (wlit "append") (wlit "write"), ws1, .lit [sqChar],
         .cap "text" (.plusLazy dotCls), .lit [sqChar], ws1,
         .alt (wlit "to") (wlit "into"), ws1, wlit "file", ws1,
         .cap "name" (.plus pathCls), ws0, .eos]

/-- Rule 20 body: GREP, double-quoted query. -/
def bodyGrepDq : Regex :=
  catRe [alts (wlit "grep")
           [catRe [wlit "find", ws1, wlit "in", ws1, wlit "files"],
            catRe [wlit "search", ws1, wlit "in", ws1, wlit "files"]],
         ws1, .lit ['"'], .cap "query" (.plusLazy dotCls), .lit ['"'],
         ws0, .eos]

/-- Rule 21 body: GREP, single-quoted query. -/
def bodyGrepSq : Regex :=
  catRe [alts (wlit "grep")
           [catRe [wlit "find", ws1, wlit "in", ws1, wlit "files"],
            catRe [wlit "search", ws1, wlit "in", ws1, wlit "files"]],
         ws1, .lit [sqChar], .cap "query" (.plusLazy dotCls), .lit [sqChar],
         ws0, .eos]

/-- Rule 22 body: SIZE. -/
def bodySize : Regex :=
  catRe [.alt (catRe [wlit "size", ws1, wlit "of"])
              (catRe [wlit "how", ws1, wlit "big", ws1, wlit "is"]),
         ws1, .cap "name" (.plus pathCls), ws0, .eos]

/-- Rule 23 body: TREE. -/
def bodyTree : Regex :=
  catRe [wlit "tree", .opt (catRe [ws1, .cap "depth" (.plus digitCls)]),
         ws0, .eos]

/-- Rule 24 body: TOUCH. -/
def bodyTouch : Regex :=
  catRe [wlit "touch", ws1, .cap "name" (.plus pathCls), ws0, .eos]

/-- Rule 25 body: CLEAR_HISTORY. -/
def bodyClearHistory : Regex :=
  catRe [wlit "clear", ws1, wlit "history", ws0, .eos]

/-- Rule 26 body: RECENTS. -/
def bodyRecents : Regex :=
  catRe [wlit "recent", ws1, wlit "files",
         .opt (catRe [ws1, .cap "count" (.plus digitCls)]), ws0, .eos]

/-- Rule 27 body: STATS. -/
def bodyStats : Regex :=
  catRe [wlit "stats", .opt (catRe [ws1, wlit "here"]), ws0, .eos]

/-- Rule 28 body: explicit OPEN_FILE. -/
def bodyOpenFileExplicit : Regex :=
  catRe [wlit "open", ws1, wlit "file", ws1, .cap "name" (.plus pathCls),
         ws0, .eos]

/-- A rule whose whole pattern is `^\s*(?:please\s+)?<body>`. -/
def politeRule (tag : RuleTag) (body : Regex) (build : Caps → Intent) : Rule :=
  ⟨tag, catRe [ws0, pleaseOpt, body], build⟩

/-- `CommandParser.patterns` in source order. -/
def patterns : List Rule :=
  [politeRule .help bodyHelp (fun _ => .help),
   politeRule .exitR bodyExit (fun _ => .exitI),
   ⟨.listR, .alt (catRe [ws0, pleaseOpt, bodyListA]) bodyListB, fun _ => .list⟩,
   politeRule .mkdir bodyMkdir (fun c => .mkdir (field c "name")),
   politeRule .mkfile bodyMkfile (fun c => .mkfile (field c "name")),
   politeRule .delete bodyDelete buildDelete,
   politeRule .cdExplicit bodyCd (fun c => .cd (field c "path")),
   politeRule .cdBack bodyBack (fun _ => .cd ".."),
   politeRule .pwd bodyPwd (fun _ => .pwd),
   ⟨.openAppR, catRe [ws0, politeKindlyOpt, bodyOpenApp], buildOpenApp⟩,
   politeRule .openGeneric bodyOpenGeneric buildOpenFile,
   politeRule .search bodySearch (fun c => .search (field c "query")),
   politeRule .rename bodyRename
     (fun c => .rename (field c "old") (field c "new")),
   politeRule .history bodyHistory (fun c => .history (numField c "count" 10)),
   politeRule .copy bodyCopy (fun c => .copy (field c "src") (field c "dst")),
   politeRule .move bodyMove (fun c => .move (field c "src") (field c "dst")),
   politeRule .read bodyRead (fun c => .read (field c "name")),
   politeRule .appendDq bodyAppendDq buildAppend,
   politeRule .appendSq bodyAppendSq buildAppend,
   politeRule .grepDq bodyGrepDq (fun c => .grep (field c "query")),
   politeRule .grepSq bodyGrepSq (fun c => .grep (field c "query")),
   politeRule .size bodySize (fun c => .size (field c "name")),
   politeRule .tree bodyTree (fun c => .tree (numField c "depth" 2)),
   politeRule .touch bodyTouch (fun c => .touch (field c "name")),
   politeRule .clearHistory bodyClearHistory (fun _ => .clearHistory),
   politeRule .recents bodyRecents (fun c => .recents (numField c "count" 10)),
   politeRule .stats bodyStats (fun _ => .stats),
   politeRule .openFileExplicit bodyOpenFileExplicit buildOpenFile]

/-- Top-to-bottom search for the first rule whose pattern matches
(the loop of `CommandParser.parse`). -/
def findRule : List Rule → Str → Option (Rule × Caps)
  | [], _ => none
  | r :: rs, s =>
      match (runRe r.re s).head? with
      | some m => some (r, m.2)
      | none => findRule rs s

/-- `CommandParser.parse` (src/parser.py lines 102-125): empty input is
UNKNOWN, otherwise the text is lowercased and stripped and the first
matching rule's handler builds the intent. -/
def parseCmd (text : Str) : Intent :=
  if text.isEmpty then .unknown (String.mk text)
  else
    match findRule patterns (trimPy (lowerStr text)) with
    | some (r, caps) => r.build caps
    | none => .unknown (String.mk (trimPy (lowerStr text)))

/-- Convenience: parse a Lean string literal. -/
def parseS (s : String) : Intent := parseCmd s.data

/-! ### Sandbox path resolver (src/state.py) and executor (src/executor.py)

Filesystem paths are modelled as lists of components of an absolute path
(`pathlib.Path` after `resolve()`); user-supplied path strings are a flag
for absoluteness plus a component list.  `Path.resolve()` on the
symlink-free tree is component normalization: `.` and empty parts vanish,
`..` removes the last component (at the root it stays at the root). -/

abbrev AbsPath := List String

/-- A user-supplied path string, split into components. -/
structure RawPath where
  absolute : Bool
  comps : List String
  deriving DecidableEq, Repr

/-- One normalization step sequence: fold components into an accumulator
(the `Path.resolve()` treatment of `.`, empty and `..` parts). -/
def normJoin : AbsPath → List String → AbsPath
  | acc, [] => acc
  | acc, c :: cs =>
      if c = "." || c = "" then normJoin acc cs
      else if c = ".." then normJoin acc.dropLast cs
      else normJoin (acc ++ [c]) cs

/-- A fully normalized path: no `.`, `..` or empty components. -/
def normalizedPath (p : AbsPath) : Bool :=
  p.all (fun c => !(c = "." || c = "" || c = ".."))

/-- The shell state: `self.base` (the sandbox root) and `self.cwd`. -/
structure ShellSt where
  base : AbsPath
  cwd : AbsPath
  deriving DecidableEq, Repr

/-- `ShellState.__init__`: cwd starts at the sandbox root. -/
def initShellSt (base : AbsPath) : ShellSt := ⟨base, base⟩

/-- `ShellState.inside_sandbox` (src/state.py lines 34-51): resolve the
target again, then `self.base in target.parents or target == self.base`,
which for normalized absolute paths is exactly: `base` is a component-wise
ancestor of, or equal to, the target. -/
def insideSandbox (st : ShellSt) (target : AbsPath) : Bool :=
  st.base.isPrefixOf (normJoin [] target)

/-- `ShellState.resolve_in_cwd` (src/state.py lines 53-77): the special
current-directory case, then `(self.cwd / rel).resolve()` followed by the
inside-sandbox check on the resolved result. -/
def resolveInCwd (st : ShellSt) (rel : RawPath) : Except String AbsPath :=
  if !rel.absolute && (rel.comps = ["."] || rel.comps = []) then .ok st.cwd
  else if insideSandbox st (normJoin (if rel.absolute then [] else st.cwd) rel.comps)
  then .ok (normJoin (if rel.absolute then [] else st.cwd) rel.comps)
  else .error "would escape sandbox"

/-- Filesystem entries: a directory or a file with text content. -/
inductive Node where
  | dir
  | file (content : String)
  deriving DecidableEq, Repr

/-- A filesystem: a finite map from absolute paths to entries. -/
abbrev FS := List (AbsPath × Node)

/-- Look a path up. -/
def fsFind (fs : FS) (p : AbsPath) : Option Node :=
  (fs.find? (fun x => x.1 = p)).map (fun x => x.2)

/-- `Path.exists()`. -/
def fsExists (fs : FS) (p : AbsPath) : Bool := (fsFind fs p).isSome

/-- `Path.is_dir()`. -/
def fsIsDir (fs : FS) (p : AbsPath) : Bool := fsFind fs p = some .dir

/-- `Path.is_file()`. -/
def fsIsFile (fs : FS) (p : AbsPath) : Bool :=
  match fsFind fs p with
  | some (.file _) => true
  | _ => false

/-- Write (create or replace) an entry. -/
def fsSet (fs : FS) (p : AbsPath) (n : Node) : FS :=
  (p, n) :: fs.filter (fun x => !(x.1 = p))

/-- Remove a single entry. -/
def fsRemoveFile (fs : FS) (p : AbsPath) : FS :=
  fs.filter (fun x => !(x.1 = p))

/-- Remove an entry and everything below it (`shutil.rmtree`). -/
def fsRemoveTree (fs : FS) (p : AbsPath) : FS :=
  fs.filter (fun x => !(p.isPrefixOf x.1))

/-- `shutil.copytree src dst`: every entry at or below `src` reappears at
the corresponding path below `dst`. -/
def fsCopyTree (fs : FS) (src dst : AbsPath) : FS :=
  fs ++ (fs.filterMap (fun x =>
    if src.isPrefixOf x.1 then some (dst ++ x.1.drop src.length, x.2) else none))

/-- `ShellState.change_directory` (src/state.py lines 79-96): resolve,
verify the target is a directory, and only then mutate `cwd`. -/
def changeDirectory (fs : FS) (st : ShellSt) (path : RawPath) : ShellSt × Bool :=
  match resolveInCwd st path with
  | .error _ => (st, false)
  | .ok newDir =>
      if !fsIsDir fs newDir then (st, false)
      else ({ st with cwd := newDir }, true)

/-- Outcomes of `executor.cd`. -/
inductive CdOutcome where
  | changed
  | errAtRoot
  | errEscape
  | errOutside
  | errNotDir
  deriving DecidableEq, Repr

/-- `executor.cd` (src/executor.py lines 139-176).  On success it hands the
already-resolved absolute target to `state.change_directory`. -/
def cdExec (fs : FS) (st : ShellSt) (path : RawPath) : ShellSt × CdOutcome :=
  if path = ⟨false, [".."]⟩ && st.cwd = st.base then (st, .errAtRoot)
  else
    match resolveInCwd st path with
    | .error _ => (st, .errEscape)
    | .ok target =>
        if !insideSandbox st target then (st, .errOutside)
        else if !fsIsDir fs target then (st, .errNotDir)
        else ((changeDirectory fs st ⟨true, target⟩).1, .changed)

/-- `executor.pwd` (src/executor.py lines 178-191): `cwd.relative_to(base)`
prefixed with "/"; if `relative_to` raises (cwd not below base) it falls
back to "/".  `str(Path("."))` is "." when cwd equals base. -/
def pwdExec (st : ShellSt) : String :=
  if st.base.isPrefixOf st.cwd then
    "/" ++ (if st.cwd.drop st.base.length = [] then "."
            else String.intercalate "/" (st.cwd.drop st.base.length))
  else "/"

/-! ### open_app (src/executor.py lines 18-28, 193-222) -/

/-- The OS-specific whitelist `executor.ALLOWED_APPS`. -/
def ALLOWED_APPS : List (String × List (String × String)) :=
  [("Windows", [("notepad", "notepad"), ("calc", "calc")]),
   ("Linux", [("gedit", "gedit"), ("calculator", "gnome-calculator"),
              ("code", "code")])]

/-- `'Windows' if platform.system() == 'Windows' else 'Linux'`. -/
def osName (system : String) : String :=
  if system = "Windows" then "Windows" else "Linux"

/-- What `executor.open_app` does: either spawns exactly one process with
the whitelisted launch token, or spawns nothing. -/
inductive OpenAppOutcome where
  | spawned (cmd : String)
  | notAllowed
  deriving DecidableEq, Repr

/-- Association-list lookup into the nested whitelist. -/
def appsFor (system : String) : List (String × String) :=
  ((ALLOWED_APPS.find? (fun x => x.1 = osName system)).map (fun x => x.2)).getD []

/-- `executor.open_app`: whitelist check before any spawn. -/
def openAppExec (system : String) (app : String) : OpenAppOutcome :=
  match dictGet (appsFor system) app with
  | none => .notAllowed
  | some cmd => .spawned cmd

/-! ### copy_item, delete, item_size (src/executor.py) -/

/-- Outcomes of `executor.copy_item` (which reports strings; the
constructors distinguish the return sites). -/
inductive CopyOutcome where
  | errException
  | errOutside
  | errNotFound
  | errExists
  | copiedFolder
  | copiedFile
  deriving DecidableEq, Repr

/-- `shutil.copy2 src dst`: if `dst` is a directory the file goes to
`dst/<src-basename>`; copying onto a path that is (still) a directory, or
onto the source itself, raises; otherwise the destination entry is written
(created or overwritten). -/
def copy2 (fs : FS) (src : AbsPath) (content : String) (dst : AbsPath) :
    FS × Bool :=
  let target := if fsIsDir fs dst then dst ++ [src.getLastD ""] else dst
  if fsIsDir fs target || target = src then (fs, false)
  else (fsSet fs target (.file content), true)

/-- `executor.copy_item` (src/executor.py lines 224-250). -/
def copyItem (fs : FS) (st : ShellSt) (srcName dstName : RawPath) :
    FS × CopyOutcome :=
  match resolveInCwd st srcName, resolveInCwd st dstName with
  | .error _, _ => (fs, .errException)
  | .ok _, .error _ => (fs, .errException)
  | .ok src, .ok dst0 =>
      let dst1 := if fsExists fs dst0 && fsIsDir fs dst0
                  then dst0 ++ [src.getLastD ""] else dst0
      if !insideSandbox st src || !insideSandbox st dst1 then (fs, .errOutside)
      else if !fsExists fs src then (fs, .errNotFound)
      else if fsIsDir fs src then
        if fsExists fs dst1 then (fs, .errExists)
        else (fsCopyTree fs src dst1, .copiedFolder)
      else
        match fsFind fs src with
        | some (.file c) =>
            let dst2 := if fsIsDir fs dst1 then dst1 ++ [src.getLastD ""]
                        else dst1
            let r := copy2 fs src c dst2
            if r.2 then (r.1, .copiedFile) else (fs, .errException)
        | _ => (fs, .errException)

/-- Outcomes of `executor.delete`. -/
inductive DeleteOutcome where
  | errException
  | errOutside
  | errNotDir
  | errNotFile
  | deletedDir
  | deletedFile
  deriving DecidableEq, Repr

/-- `executor.delete` (src/executor.py lines 101-137). -/
def deleteExec (fs : FS) (st : ShellSt) (kind : String) (name : RawPath) :
    FS × DeleteOutcome :=
  match resolveInCwd st name with
  | .error _ => (fs, .errException)
  | .ok target =>
      if !insideSandbox st target then (fs, .errOutside)
      else if kind = "folder" then
        if !fsIsDir fs target then (fs, .errNotDir)
        else (fsRemoveTree fs target, .deletedDir)
      else
        if !fsIsFile fs target then (fs, .errNotFile)
        else (fsRemoveFile fs target, .deletedFile)

/-- `_dir_size` (src/executor.py lines 328-341): a file's byte length, or
the recursive sum of contained file sizes (content length stands in for
the byte count). -/
def dirSize (fs : FS) (p : AbsPath) : Nat :=
  match fsFind fs p with
  | some (.file c) => c.length
  | _ =>
      (fs.filterMap (fun x =>
        if p.isPrefixOf x.1 && !(x.1 = p) then
          match x.2 with
          | .file c => some c.length
          | .dir => none
        else none)).sum

/-- Round half to even (the rounding of Python's float formatting; the
sizes divided by powers of 1024 are dyadic rationals, on which binary
floating point and exact rational arithmetic agree for sizes below 2^53). -/
def roundHalfEven (x : ℚ) : ℤ :=
  let f := ⌊x⌋
  let r := x - (f : ℚ)
  if r < 1/2 then f
  else if 1/2 < r then f + 1
  else if f % 2 = 0 then f else f + 1

/-- Two-digit zero-padded fraction part. -/
def pad2 (n : Nat) : String := if n < 10 then "0" ++ toString n else toString n

/-- Python's `f"{x:.2f}"` for a nonnegative value. -/
def fmtFloat2 (x : ℚ) : String :=
  toString (roundHalfEven (x * 100) / 100) ++ "." ++
    pad2 (roundHalfEven (x * 100) % 100).toNat

/-- The unit loop of `_fmt_size` (src/executor.py lines 343-350). -/
def fmtSizeGo (n : Nat) : ℚ → List String → String
  | _, [] => toString n ++ " B"
  | size, u :: rest =>
      if size < 1024 || rest.isEmpty then fmtFloat2 size ++ " " ++ u
      else fmtSizeGo n (size / 1024) rest

/-- `_fmt_size`. -/
def fmtSize (n : Nat) : String :=
  fmtSizeGo n (n : ℚ) ["B", "KB", "MB", "GB", "TB"]

/-- `executor.item_size` (src/executor.py lines 352-362). -/
def itemSize (fs : FS) (st : ShellSt) (name : RawPath) : String :=
  match resolveInCwd st name with
  | .error _ => "Error: would escape sandbox"
  | .ok path =>
      if !insideSandbox st path then "Error: Outside sandbox"
      else if !fsExists fs path then "Error: not found"
      else "Size of '" ++ path.getLastD "" ++ "': " ++ fmtSize (dirSize fs path)

/-! ### The delete-confirmation state machine (src/main.py lines 102-175) -/

/-- The two machine states. -/
inductive MState where
  | ready
  | awaitConfirmDelete
  deriving DecidableEq, Repr

/-- `ShellStateMachine`: `self.state` and `self.pending_payload`
(kind and name of the delete awaiting confirmation). -/
structure Machine where
  st : MState
  pending : Option (String × RawPath)
  deriving DecidableEq, Repr

/-- `ShellStateMachine.__init__`. -/
def initMachine : Machine := ⟨.ready, none⟩

/-- `ShellStateMachine.set_delete_confirmation` (src/main.py lines 162-175). -/
def setDeleteConfirmation (_ : Machine) (payload : String × RawPath) : Machine :=
  ⟨.awaitConfirmDelete, some payload⟩

/-- `ShellStateMachine.handle_delete_confirmation` (src/main.py lines
111-160): returns whether the utterance was consumed, the next machine,
and the filesystem after any confirmed delete. -/
def handleDeleteConfirmation (m : Machine) (text : Str) (sst : ShellSt)
    (fs : FS) : Bool × Machine × FS :=
  match m.st, m.pending with
  | .awaitConfirmDelete, some payload =>
      let ans := trimPy (lowerStr text)
      if ans = "yes".data || ans = "y".data then
        (true, ⟨.ready, none⟩, (deleteExec fs sst payload.1 payload.2).1)
      else
        (true, ⟨.ready, none⟩, fs)
  | _, _ => (false, m, fs)

/-- `VoiceShell.process_command` (src/main.py lines 332-400), abstracted
over everything after the confirmation check: if the confirmation handler
consumes the utterance, processing returns at once and the utterance is
never parsed; otherwise the parse-and-dispatch continuation runs. -/
def processCommandWith (dispatch : Str → Machine × FS → Machine × FS)
    (m : Machine) (fs : FS) (sst : ShellSt) (text : Str) : Machine × FS :=
  let r := handleDeleteConfirmation m text sst fs
  if r.1 then (r.2.1, r.2.2) else dispatch text (r.2.1, r.2.2)

/-! ### Lemmas about path normalization and the resolver -/

theorem normalizedPath_dropLast {p : AbsPath} (h : normalizedPath p = true) :
    normalizedPath p.dropLast = true := by
  simp only [normalizedPath, List.all_eq_true] at h ⊢
  intro c hc
  exact h c (List.dropLast_subset p hc)

theorem normalizedPath_normJoin {cs : List String} {acc : AbsPath}
    (h : normalizedPath acc = true) :
    normalizedPath (normJoin acc cs) = true := by
  induction cs generalizing acc with
  | nil => simpa [normJoin] using h
  | cons c cs ih =>
      by_cases h1 : c = "." ∨ c = ""
      · rcases h1 with h1 | h1 <;> simp [normJoin, h1] <;> exact ih h
      · push_neg at h1
        by_cases h2 : c = ".."
        · simp [normJoin, h1.1, h1.2, h2]
          exact ih (normalizedPath_dropLast h)
        · simp [normJoin, h1.1, h1.2, h2]
          apply ih
          simp only [normalizedPath, List.all_eq_true] at h ⊢
          intro d hd
          rcases List.mem_append.mp hd with hd | hd
          · exact h d hd
          · simp only [List.mem_singleton] at hd
            subst hd
            simp [h1.1, h1.2, h2]

theorem normJoin_of_normalized {cs : List String} {acc : AbsPath}
    (h : normalizedPath cs = true) :
    normJoin acc cs = acc ++ cs := by
  induction cs generalizing acc with
  | nil => simp [normJoin]
  | cons c cs ih =>
      simp only [normalizedPath, List.all_cons, Bool.and_eq_true] at h
      obtain ⟨h1, h2⟩ := h
      simp only [Bool.not_eq_true', Bool.or_eq_false_iff,
        decide_eq_false_iff_not] at h1
      simp [normJoin, h1.1.1, h1.1.2, h1.2, ih (by simpa [normalizedPath] using h2)]

theorem insideSandbox_of_normalized {st : ShellSt} {t : AbsPath}
    (hn : normalizedPath t = true) :
    insideSandbox st t = st.base.isPrefixOf t := by
  simp [insideSandbox, normJoin_of_normalized hn]

/-- Core property of `resolve_in_cwd`: every successful result is inside
the sandbox and fully normalized (given a well-formed state). -/
theorem resolveInCwd_ok {st : ShellSt} {rel : RawPath} {r : AbsPath}
    (hcwd : normalizedPath st.cwd = true)
    (hin : st.base.isPrefixOf st.cwd = true)
    (h : resolveInCwd st rel = .ok r) :
    st.base.isPrefixOf r = true ∧ normalizedPath r = true := by
  unfold resolveInCwd at h
  by_cases hs : (!rel.absolute && (rel.comps = ["."] || rel.comps = [])) = true
  · rw [if_pos hs] at h
    cases h
    exact ⟨hin, hcwd⟩
  · rw [if_neg hs] at h
    have hnorm : normalizedPath
        (normJoin (if rel.absolute then [] else st.cwd) rel.comps) = true := by
      by_cases ha : rel.absolute = true
      · rw [if_pos ha]
        exact normalizedPath_normJoin (by simp [normalizedPath])
      · rw [if_neg ha]
        exact normalizedPath_normJoin hcwd
    by_cases hi : insideSandbox st
        (normJoin (if rel.absolute then [] else st.cwd) rel.comps) = true
    · rw [if_pos hi] at h
      cases h
      rw [insideSandbox_of_normalized hnorm] at hi
      exact ⟨hi, hnorm⟩
    · rw [if_neg hi] at h
      cases h

/-- C1: for every path string and every current directory inside the
sandbox root, `resolve_in_cwd` either fails with the escape error or
returns a fully normalized path that is the sandbox root or a descendant
of it — the check is made on the normalized result, so traversal strings
never yield a path outside the sandbox. -/
theorem C1_resolve_in_cwd_confines :
    ∀ (st : ShellSt) (rel : RawPath) (r : AbsPath),
      normalizedPath st.cwd = true →
      st.base.isPrefixOf st.cwd = true →
      resolveInCwd st rel = .ok r →
      st.base.isPrefixOf r = true ∧ normalizedPath r = true :=
  fun _ _ _ hcwd hin h => resolveInCwd_ok hcwd hin h

/-- C1 witness: at the sandbox ["home","sandbox"], the traversal string
"a/../../etc/passwd" is rejected, and a benign relative path resolves to a
normalized descendant, to which the theorem applies. -/
theorem C1_resolve_in_cwd_confines_witness :
    resolveInCwd ⟨["home", "sandbox"], ["home", "sandbox"]⟩
        ⟨false, ["a", "..", "..", "etc", "passwd"]⟩ =
      .error "would escape sandbox" ∧
    resolveInCwd ⟨["home", "sandbox"], ["home", "sandbox"]⟩
        ⟨false, ["docs", "..", "notes", "x.txt"]⟩ =
      .ok ["home", "sandbox", "notes", "x.txt"] ∧
    (["home", "sandbox"] : AbsPath).isPrefixOf
        ["home", "sandbox", "notes", "x.txt"] = true ∧
    normalizedPath ["home", "sandbox", "notes", "x.txt"] = true := by
  refine ⟨by rfl, by rfl, ?_⟩
  exact C1_resolve_in_cwd_confines ⟨["home", "sandbox"], ["home", "sandbox"]⟩
    ⟨false, ["docs", "..", "notes", "x.txt"]⟩ ["home", "sandbox", "notes", "x.txt"]
    (by decide) (by decide) (by rfl)

theorem changeDirectory_abs {fs : FS} {st : ShellSt} {target : AbsPath}
    (hn : normalizedPath target = true)
    (hp : st.base.isPrefixOf target = true)
    (hd : fsIsDir fs target = true) :
    changeDirectory fs st ⟨true, target⟩ = ({ st with cwd := target }, true) := by
  have h0 : normJoin ([] : AbsPath) target = target := normJoin_of_normalized hn
  have h1 : resolveInCwd st ⟨true, target⟩ = .ok target := by
    unfold resolveInCwd
    simp [h0, insideSandbox_of_normalized hn, hp]
  unfold changeDirectory
  rw [h1]
  simp [hd]

/-- C5: the current directory starts at the sandbox root, the executor's
`cd` mutates it only on the success path (any failing outcome, including
requesting the parent while already at the root, leaves the state
untouched), and after any `cd` the current directory is still the sandbox
root or a normalized descendant of it. -/
theorem C5_cd_keeps_cwd_inside :
    ∀ (fs : FS) (st : ShellSt) (path : RawPath),
      normalizedPath st.cwd = true →
      st.base.isPrefixOf st.cwd = true →
      ((initShellSt st.base).cwd = st.base) ∧
      ((cdExec fs st path).1.base = st.base) ∧
      ((cdExec fs st path).1.base.isPrefixOf (cdExec fs st path).1.cwd = true) ∧
      (normalizedPath (cdExec fs st path).1.cwd = true) ∧
      ((cdExec fs st path).2 ≠ .changed → (cdExec fs st path).1 = st) ∧
      (path = ⟨false, [".."]⟩ → st.cwd = st.base →
        (cdExec fs st path).2 = .errAtRoot ∧ (cdExec fs st path).1 = st) := by
  intro fs st path hcwd hin
  by_cases hroot : (path = ⟨false, [".."]⟩ && st.cwd = st.base) = true
  · unfold cdExec
    rw [if_pos hroot]
    simp only [Bool.and_eq_true, decide_eq_true_eq] at hroot
    exact ⟨rfl, rfl, hin, hcwd, fun _ => rfl, fun _ _ => ⟨rfl, rfl⟩⟩
  · unfold cdExec
    rw [if_neg hroot]
    simp only [Bool.and_eq_true, decide_eq_true_eq] at hroot
    have hroot2 : ¬(path = ⟨false, [".."]⟩ ∧ st.cwd = st.base) := by
      intro hc
      exact hroot ⟨by simp [hc.1], by simp [hc.2]⟩
    cases hE : resolveInCwd st path with
    | error e =>
        exact ⟨rfl, rfl, hin, hcwd, fun _ => rfl, fun h1 h2 => absurd ⟨h1, h2⟩ hroot2⟩
    | ok target =>
        obtain ⟨htin, htn⟩ := resolveInCwd_ok hcwd hin hE
        simp only [hE]
        by_cases hi : insideSandbox st target = true
        · rw [if_neg (by simp [hi])]
          by_cases hd : fsIsDir fs target = true
          · rw [if_neg (by simp [hd]), changeDirectory_abs htn htin hd]
            exact ⟨rfl, rfl, htin, htn, fun hc => absurd rfl hc,
              fun h1 h2 => absurd ⟨h1, h2⟩ hroot2⟩
          · rw [if_pos (by simp [hd])]
            exact ⟨rfl, rfl, hin, hcwd, fun _ => rfl,
              fun h1 h2 => absurd ⟨h1, h2⟩ hroot2⟩
        · rw [if_pos (by simp [hi])]
          exact ⟨rfl, rfl, hin, hcwd, fun _ => rfl,
            fun h1 h2 => absurd ⟨h1, h2⟩ hroot2⟩

/-- C5 witness: at a concrete sandbox, `cd ..` at the root fails and
leaves the state unchanged, as the theorem applied there states. -/
theorem C5_cd_keeps_cwd_inside_witness :
    (cdExec [(["home", "sandbox"], .dir)]
      ⟨["home", "sandbox"], ["home", "sandbox"]⟩ ⟨false, [".."]⟩).2 =
        .errAtRoot ∧
    (cdExec [(["home", "sandbox"], .dir)]
      ⟨["home", "sandbox"], ["home", "sandbox"]⟩ ⟨false, [".."]⟩).1 =
        ⟨["home", "sandbox"], ["home", "sandbox"]⟩ :=
  (C5_cd_keeps_cwd_inside [(["home", "sandbox"], .dir)]
    ⟨["home", "sandbox"], ["home", "sandbox"]⟩ ⟨false, [".."]⟩
    (by decide) (by decide)).2.2.2.2.2 rfl rfl

/-- C2: `open_app` spawns a process only for tokens that are keys of the
platform's static whitelist; every other token yields the not-allowed
outcome and no spawn (fails closed). -/
theorem C2_open_app_fails_closed :
    ∀ (system app : String),
      (∀ cmd, openAppExec system app = .spawned cmd →
        dictGet (appsFor system) app = some cmd) ∧
      (dictGet (appsFor system) app = none →
        openAppExec system app = .notAllowed) := by
  intro system app
  unfold openAppExec
  cases hd : dictGet (appsFor system) app with
  | none =>
      refine ⟨fun cmd h => ?_, fun _ => rfl⟩
      cases h
  | some c =>
      refine ⟨fun cmd h => ?_, fun h => by cases h⟩
      cases h
      rfl

/-- C7 counterexample: with the current directory equal to the sandbox
root, `pwd` returns "/." (since `Path.relative_to` yields "."), not the
bare root marker "/" the claim states. -/
theorem C7_pwd_counterexample :
    pwdExec (initShellSt ["home", "sandbox"]) = "/." ∧ ("/." : String) ≠ "/" :=
  ⟨rfl, by decide⟩

/-- C7 (amended): `pwd` always returns the current directory as a
sandbox-relative path prefixed with the root marker "/"; when the current
directory equals the sandbox root the relative part is "." (so the result
is "/.", not the bare marker). -/
theorem C7_pwd_sandbox_relative :
    ∀ st : ShellSt, st.base.isPrefixOf st.cwd = true →
      (∃ t, pwdExec st = "/" ++ t) ∧
      (st.cwd = st.base → pwdExec st = "/.") ∧
      (st.cwd ≠ st.base →
        pwdExec st = "/" ++ String.intercalate "/" (st.cwd.drop st.base.length)) := by
  intro st h
  unfold pwdExec
  rw [if_pos h]
  refine ⟨⟨_, rfl⟩, fun he => ?_, fun hne => ?_⟩
  · rw [he, List.drop_length]
    rfl
  · obtain ⟨t, ht⟩ := List.isPrefixOf_iff_prefix.mp h
    have hd : st.cwd.drop st.base.length = t := by
      rw [← ht]
      exact List.drop_left st.base t
    have htne : t ≠ [] := by
      intro h0
      rw [h0, List.append_nil] at ht
      exact hne ht.symm
    rw [if_neg (by rw [hd]; exact htne)]

/-- C7 witness: the theorem applied at a concrete state one level below
the root. -/
theorem C7_pwd_sandbox_relative_witness :
    pwdExec ⟨["home", "sandbox"], ["home", "sandbox", "docs"]⟩ = "/docs" :=
  ((C7_pwd_sandbox_relative ⟨["home", "sandbox"], ["home", "sandbox", "docs"]⟩
    (by decide)).2.2 (by decide)).trans rfl

theorem fmtFloat2_natCast (n : ℕ) : fmtFloat2 (n : ℚ) = toString n ++ ".00" := by
  have hf : roundHalfEven ((n : ℚ) * 100) = ((100 * n : ℕ) : ℤ) := by
    unfold roundHalfEven
    rw [show ((n : ℚ)) * 100 = ((100 * n : ℕ) : ℚ) from by push_cast; ring,
      Int.floor_natCast]
    rw [if_pos (by push_cast; norm_num)]
  unfold fmtFloat2
  rw [hf]
  rw [show (((100 * n : ℕ) : ℤ)) / 100 = (n : ℤ) from by
        push_cast; exact Int.mul_ediv_cancel_left _ (by norm_num),
      show (((100 * n : ℕ) : ℤ)) % 100 = 0 from by
        push_cast; exact Int.mul_emod_right 100 n]
  show toString ((n : ℤ)) ++ "." ++ pad2 0 = toString n ++ ".00"
  rw [String.append_assoc]
  rfl

theorem fmtSizeGo_cons (n : ℕ) (size : ℚ) (u : String) (rest : List String) :
    fmtSizeGo n size (u :: rest) =
      if (size < 1024 || rest.isEmpty : Bool) then fmtFloat2 size ++ " " ++ u
      else fmtSizeGo n (size / 1024) rest := rfl

theorem fmtSize_lt_1024 {n : ℕ} (h : n < 1024) :
    fmtSize n = toString n ++ ".00 B" := by
  have hq : (n : ℚ) < 1024 := by exact_mod_cast h
  unfold fmtSize
  rw [fmtSizeGo_cons, if_pos (by simp [hq]), fmtFloat2_natCast]
  simp only [String.append_assoc]
  rfl

/-- C8 counterexample: `_fmt_size` renders plain byte counts with two
decimal places ("512.00 B"), never as the bare integer the claim states;
zero bytes render as "0.00 B". -/
theorem C8_fmt_size_counterexample :
    fmtSize 512 = "512.00 B" ∧ fmtSize 512 ≠ "512 B" ∧ fmtSize 0 = "0.00 B" := by
  have h1 : fmtSize 512 = "512.00 B" := by
    rw [fmtSize_lt_1024 (by norm_num)]
    rfl
  have h2 : fmtSize 0 = "0.00 B" := by
    rw [fmtSize_lt_1024 (by norm_num)]
    rfl
  exact ⟨h1, by rw [h1]; decide, h2⟩

/-- C8 (amended): `_fmt_size` scales through B/KB/MB/GB/TB with binary
1024 scaling and renders every unit — bytes included — with two decimal
places; `item_size` of an existing zero-byte file reports "0.00 B" rather
than an error. -/
theorem C8_fmt_size_scaling :
    ∀ n : ℕ,
      (n < 1024 → fmtSize n = toString n ++ ".00 B") ∧
      (1024 ≤ n → n < 1024 ^ 2 →
        fmtSize n = fmtFloat2 ((n : ℚ) / 1024) ++ " KB") ∧
      (1024 ^ 2 ≤ n → n < 1024 ^ 3 →
        fmtSize n = fmtFloat2 ((n : ℚ) / 1024 ^ 2) ++ " MB") ∧
      (1024 ^ 3 ≤ n → n < 1024 ^ 4 →
        fmtSize n = fmtFloat2 ((n : ℚ) / 1024 ^ 3) ++ " GB") ∧
      (1024 ^ 4 ≤ n → fmtSize n = fmtFloat2 ((n : ℚ) / 1024 ^ 4) ++ " TB") ∧
      (itemSize [(["sb"], .dir), (["sb", "z.txt"], .file "")]
        ⟨["sb"], ["sb"]⟩ ⟨false, ["z.txt"]⟩ = "Size of 'z.txt': 0.00 B") := by
  intro n
  have d1 : ∀ m : ℕ, 0 < m → (((n : ℚ) / m < 1024) ↔ (n : ℚ) < 1024 * m) := by
    intro m hm
    rw [div_lt_iff (by exact_mod_cast hm)]
  refine ⟨?_, ?_, ?_, ?_, ?_, ?_⟩
  · exact fun h => fmtSize_lt_1024 h
  · intro h1 h2
    have hq1 : ¬((n : ℚ) < 1024) := not_lt.mpr (by exact_mod_cast h1)
    have hq2 : (n : ℚ) / 1024 < 1024 := by
      rw [div_lt_iff (by norm_num : (0 : ℚ) < 1024)]
      calc (n : ℚ) < ((1024 ^ 2 : ℕ) : ℚ) := by exact_mod_cast h2
        _ = 1024 * 1024 := by norm_num
    unfold fmtSize
    rw [fmtSizeGo_cons, if_neg (by simp [hq1]), fmtSizeGo_cons,
      if_pos (by simp [hq2])]
    simp only [String.append_assoc]
    rfl
  · intro h1 h2
    have hq1 : ¬((n : ℚ) < 1024) := not_lt.mpr (by
      have : (1024 : ℕ) ≤ n := le_trans (by norm_num) h1
      exact_mod_cast this)
    have hq2 : ¬((n : ℚ) / 1024 < 1024) := by
      rw [div_lt_iff (by norm_num : (0 : ℚ) < 1024)]
      push_neg
      calc (1024 * 1024 : ℚ) = ((1024 ^ 2 : ℕ) : ℚ) := by norm_num
        _ ≤ (n : ℚ) := by exact_mod_cast h1
    have hq3 : (n : ℚ) / 1024 / 1024 < 1024 := by
      rw [div_div, div_lt_iff (by norm_num : (0 : ℚ) < 1024 * 1024)]
      calc (n : ℚ) < ((1024 ^ 3 : ℕ) : ℚ) := by exact_mod_cast h2
        _ = 1024 * (1024 * 1024) := by norm_num
    unfold fmtSize
    rw [fmtSizeGo_cons, if_neg (by simp [hq1]), fmtSizeGo_cons,
      if_neg (by simp [hq2]), fmtSizeGo_cons, if_pos (by simp [hq3])]
    rw [show (n : ℚ) / 1024 / 1024 = (n : ℚ) / 1024 ^ 2 from by
      rw [div_div]; norm_num]
    simp only [String.append_assoc]
    rfl
  · intro h1 h2
    have hq1 : ¬((n : ℚ) < 1024) := not_lt.mpr (by
      have : (1024 : ℕ) ≤ n := le_trans (by norm_num) h1
      exact_mod_cast this)
    have hq2 : ¬((n : ℚ) / 1024 < 1024) := by
      rw [div_lt_iff (by norm_num : (0 : ℚ) < 1024)]
      push_neg
      calc (1024 * 1024 : ℚ) = ((1024 ^ 2 : ℕ) : ℚ) := by norm_num
        _ ≤ (n : ℚ) := by exact_mod_cast le_trans (by norm_num) h1
    have hq3 : ¬((n : ℚ) / 1024 / 1024 < 1024) := by
      rw [div_div, div_lt_iff (by norm_num : (0 : ℚ) < 1024 * 1024)]
      push_neg
      calc (1024 * (1024 * 1024) : ℚ) = ((1024 ^ 3 : ℕ) : ℚ) := by norm_num
        _ ≤ (n : ℚ) := by exact_mod_cast h1
    have hq4 : (n : ℚ) / 1024 / 1024 / 1024 < 1024 := by
      rw [div_div, div_div, div_lt_iff
        (by norm_num : (0 : ℚ) < 1024 * (1024 * 1024))]
      calc (n : ℚ) < ((1024 ^ 4 : ℕ) : ℚ) := by exact_mod_cast h2
        _ = 1024 * (1024 * (1024 * 1024)) := by norm_num
    unfold fmtSize
    rw [fmtSizeGo_cons, if_neg (by simp [hq1]), fmtSizeGo_cons,
      if_neg (by simp [hq2]), fmtSizeGo_cons, if_neg (by simp [hq3]),
      fmtSizeGo_cons, if_pos (by simp [hq4])]
    rw [show (n : ℚ) / 1024 / 1024 / 1024 = (n : ℚ) / 1024 ^ 3 from by
      rw [div_div, div_div]; norm_num]
    simp only [String.append_assoc]
    rfl
  · intro h1
    have hq1 : ¬((n : ℚ) < 1024) := not_lt.mpr (by
      have : (1024 : ℕ) ≤ n := le_trans (by norm_num) h1
      exact_mod_cast this)
    have hq2 : ¬((n : ℚ) / 1024 < 1024) := by
      rw [div_lt_iff (by norm_num : (0 : ℚ) < 1024)]
      push_neg
      calc (1024 * 1024 : ℚ) = ((1024 ^ 2 : ℕ) : ℚ) := by norm_num
        _ ≤ (n : ℚ) := by exact_mod_cast le_trans (by norm_num) h1
    have hq3 : ¬((n : ℚ) / 1024 / 1024 < 1024) := by
      rw [div_div, div_lt_iff (by norm_num : (0 : ℚ) < 1024 * 1024)]
      push_neg
      calc (1024 * (1024 * 1024) : ℚ) = ((1024 ^ 3 : ℕ) : ℚ) := by norm_num
        _ ≤ (n : ℚ) := by exact_mod_cast le_trans (by norm_num) h1
    have hq4 : ¬((n : ℚ) / 1024 / 1024 / 1024 < 1024) := by
      rw [div_div, div_div, div_lt_iff
        (by norm_num : (0 : ℚ) < 1024 * (1024 * 1024))]
      push_neg
      calc (1024 * (1024 * (1024 * 1024)) : ℚ)
          = ((1024 ^ 4 : ℕ) : ℚ) := by norm_num
        _ ≤ (n : ℚ) := by exact_mod_cast h1
    unfold fmtSize
    rw [fmtSizeGo_cons, if_neg (by simp [hq1]), fmtSizeGo_cons,
      if_neg (by simp [hq2]), fmtSizeGo_cons, if_neg (by simp [hq3]),
      fmtSizeGo_cons, if_neg (by simp [hq4]), fmtSizeGo_cons,
      if_pos (by simp)]
    rw [show (n : ℚ) / 1024 / 1024 / 1024 / 1024 = (n : ℚ) / 1024 ^ 4 from by
      rw [div_div, div_div, div_div]; norm_num]
    simp only [String.append_assoc]
    rfl
  · show "Size of '" ++ "z.txt" ++ "': " ++
      fmtSize (dirSize [(["sb"], .dir), (["sb", "z.txt"], .file "")]
        ["sb", "z.txt"]) = "Size of 'z.txt': 0.00 B"
    rw [show dirSize [(["sb"], .dir), (["sb", "z.txt"], .file "")]
      ["sb", "z.txt"] = 0 from rfl]
    rw [fmtSize_lt_1024 (by norm_num)]
    rfl

/-- C3: in the awaiting-delete-confirmation state, every next utterance is
consumed by the confirmation handler (the parse-and-dispatch continuation
never runs, whatever it is); exactly the trimmed case-insensitive tokens
"yes"/"y" invoke the delete primitive, any other reply cancels leaving the
filesystem untouched, and both branches clear the pending payload and
return the machine to READY. -/
theorem C3_confirmation_consumed :
    ∀ (dispatch : Str → Machine × FS → Machine × FS) (m : Machine) (fs : FS)
      (sst : ShellSt) (text : Str) (payload : String × RawPath),
      m.st = .awaitConfirmDelete → m.pending = some payload →
      processCommandWith dispatch m fs sst text =
        (⟨.ready, none⟩,
         if (trimPy (lowerStr text) = "yes".data
             || trimPy (lowerStr text) = "y".data : Bool)
         then (deleteExec fs sst payload.1 payload.2).1
         else fs) := by
  intro dispatch m fs sst text payload h1 h2
  obtain ⟨mst, mp⟩ := m
  simp only at h1 h2
  subst h1
  subst h2
  by_cases hy : (trimPy (lowerStr text) = "yes".data
      || trimPy (lowerStr text) = "y".data) = true
  · simp [processCommandWith, handleDeleteConfirmation, hy]
  · simp [processCommandWith, handleDeleteConfirmation, hy]

/-- C3 witness: a non-affirmative reply (" NO ") to a pending delete is
consumed, cancels the delete (file still present) and resets the machine,
whatever dispatch continuation is installed. -/
theorem C3_confirmation_consumed_witness :
    processCommandWith (fun _ s => s)
      ⟨.awaitConfirmDelete, some ("file", ⟨false, ["a.txt"]⟩)⟩
      [(["sb"], .dir), (["sb", "a.txt"], .file "A")]
      ⟨["sb"], ["sb"]⟩ (" NO ".data) =
      (⟨.ready, none⟩, [(["sb"], .dir), (["sb", "a.txt"], .file "A")]) :=
  (C3_confirmation_consumed (fun _ s => s)
    ⟨.awaitConfirmDelete, some ("file", ⟨false, ["a.txt"]⟩)⟩
    [(["sb"], .dir), (["sb", "a.txt"], .file "A")]
    ⟨["sb"], ["sb"]⟩ (" NO ".data) ("file", ⟨false, ["a.txt"]⟩)
    rfl rfl).trans (by decide)

theorem fsExists_of_find {fs : FS} {p : AbsPath} {n : Node}
    (h : fsFind fs p = some n) : fsExists fs p = true := by
  simp [fsExists, h]

theorem fsIsDir_of_find_file {fs : FS} {p : AbsPath} {c : String}
    (h : fsFind fs p = some (.file c)) : fsIsDir fs p = false := by
  simp [fsIsDir, h]

/-- C6 counterexample: copying file a.txt onto the existing file b.txt
succeeds and replaces b.txt's content ("B" becomes "A"): `shutil.copy2`
overwrites, so COPY does overwrite an existing regular-file destination. -/
theorem C6_copy_counterexample :
    fsFind [(["sb"], Node.dir), (["sb", "a.txt"], Node.file "A"),
        (["sb", "b.txt"], Node.file "B")] ["sb", "b.txt"] =
      some (.file "B") ∧
    (copyItem [(["sb"], Node.dir), (["sb", "a.txt"], Node.file "A"),
        (["sb", "b.txt"], Node.file "B")]
      ⟨["sb"], ["sb"]⟩ ⟨false, ["a.txt"]⟩ ⟨false, ["b.txt"]⟩).2 =
      .copiedFile ∧
    fsFind (copyItem [(["sb"], Node.dir), (["sb", "a.txt"], Node.file "A"),
        (["sb", "b.txt"], Node.file "B")]
      ⟨["sb"], ["sb"]⟩ ⟨false, ["a.txt"]⟩ ⟨false, ["b.txt"]⟩).1
      ["sb", "b.txt"] = some (.file "A") := by
  decide

/-- C6 (amended): for a regular-file source, COPY overwrites an existing
regular-file destination (the copy succeeds and the destination entry
becomes the source's content); when the destination is an existing
directory, the file is placed inside it under the source's final name. -/
theorem C6_copy_file_semantics :
    ∀ (fs : FS) (st : ShellSt) (srcName dstName : RawPath)
      (src dst : AbsPath) (c : String),
      resolveInCwd st srcName = .ok src →
      resolveInCwd st dstName = .ok dst →
      fsFind fs src = some (.file c) →
      insideSandbox st src = true →
      (∀ c2, fsFind fs dst = some (.file c2) → dst ≠ src →
        insideSandbox st dst = true →
        copyItem fs st srcName dstName = (fsSet fs dst (.file c), .copiedFile)) ∧
      (fsFind fs dst = some .dir →
        insideSandbox st (dst ++ [src.getLastD ""]) = true →
        fsIsDir fs (dst ++ [src.getLastD ""]) = false →
        dst ++ [src.getLastD ""] ≠ src →
        copyItem fs st srcName dstName =
          (fsSet fs (dst ++ [src.getLastD ""]) (.file c), .copiedFile)) := by
  intro fs st srcName dstName src dst c hsrc hdst hfs hins
  have h3 : fsExists fs src = true := fsExists_of_find hfs
  have h4 : fsIsDir fs src = false := fsIsDir_of_find_file hfs
  constructor
  · intro c2 hfd hne hind
    have h1 : fsIsDir fs dst = false := fsIsDir_of_find_file hfd
    simp [copyItem, hsrc, hdst, copy2, h1, h3, h4, hins, hind, hne, hfs]
  · intro hfd hin1 hnd hne
    have h1 : fsIsDir fs dst = true := by simp [fsIsDir, hfd]
    have h2 : fsExists fs dst = true := fsExists_of_find hfd
    simp only [List.getLastD_eq_getLast?] at hin1 hnd hne
    simp [copyItem, hsrc, hdst, copy2, h1, h2, h3, h4, hins, hin1, hnd, hne, hfs]

/-- C6 witness: the overwrite clause of the theorem applied to the
concrete a.txt-onto-b.txt copy. -/
theorem C6_copy_file_semantics_witness :
    copyItem [(["sb"], Node.dir), (["sb", "a.txt"], Node.file "A"),
        (["sb", "b.txt"], Node.file "B")]
      ⟨["sb"], ["sb"]⟩ ⟨false, ["a.txt"]⟩ ⟨false, ["b.txt"]⟩ =
      (fsSet [(["sb"], Node.dir), (["sb", "a.txt"], Node.file "A"),
        (["sb", "b.txt"], Node.file "B")] ["sb", "b.txt"] (.file "A"),
       .copiedFile) :=
  (C6_copy_file_semantics
    [(["sb"], Node.dir), (["sb", "a.txt"], Node.file "A"),
      (["sb", "b.txt"], Node.file "B")]
    ⟨["sb"], ["sb"]⟩ ⟨false, ["a.txt"]⟩ ⟨false, ["b.txt"]⟩
    ["sb", "a.txt"] ["sb", "b.txt"] "A"
    rfl rfl rfl rfl).1 "B" rfl (by decide) rfl

theorem findRule_first (rs : List Rule) : ∀ (s : Str) (i : ℕ) (hi : i < rs.length),
    (∀ j (hj : j < rs.length), j < i → runRe (rs.get ⟨j, hj⟩).re s = []) →
    runRe (rs.get ⟨i, hi⟩).re s ≠ [] →
    findRule rs s =
      ((runRe (rs.get ⟨i, hi⟩).re s).head?).map
        (fun m => (rs.get ⟨i, hi⟩, m.2)) := by
  induction rs with
  | nil => intro s i hi; simp at hi
  | cons r rs ih =>
      intro s i hi hearly hmatch
      cases i with
      | zero =>
          simp only [List.get] at hmatch ⊢
          cases hm : runRe r.re s with
          | nil => exact absurd hm hmatch
          | cons a t => simp [findRule, hm]
      | succ i =>
          have h0 : runRe r.re s = [] :=
            hearly 0 (Nat.succ_pos _) (Nat.succ_pos _)
          simp only [List.get] at hmatch ⊢
          rw [findRule, h0]
          simp only [List.head?_nil]
          exact ih s i (Nat.lt_of_succ_lt_succ hi)
            (fun j hj hji => hearly (j + 1) (Nat.succ_lt_succ hj)
              (Nat.succ_lt_succ hji)) hmatch

/-- C4: the rule list carries exactly the canonical ordering (HELP, EXIT,
LIST, MKDIR, MKFILE, DELETE, CD explicit, CD back/up, PWD, OPEN_APP, OPEN
generic, SEARCH, RENAME, HISTORY, COPY, MOVE, READ, APPEND double-quote,
APPEND single-quote, GREP double-quote, GREP single-quote, SIZE, TREE,
TOUCH, CLEAR_HISTORY, RECENTS, STATS, explicit OPEN_FILE), and the parse
loop returns the intent built from the first pattern that matches: if no
earlier pattern matches and pattern i does, the search yields rule i with
the captures of its preferred match. -/
theorem C4_first_match_wins :
    (patterns.map Rule.tag =
      [.help, .exitR, .listR, .mkdir, .mkfile, .delete, .cdExplicit, .cdBack,
       .pwd, .openAppR, .openGeneric, .search, .rename, .history, .copy,
       .move, .read, .appendDq, .appendSq, .grepDq, .grepSq, .size, .tree,
       .touch, .clearHistory, .recents, .stats, .openFileExplicit]) ∧
    (∀ (s : Str) (i : ℕ) (hi : i < patterns.length),
      (∀ j (hj : j < patterns.length), j < i →
        runRe (patterns.get ⟨j, hj⟩).re s = []) →
      runRe (patterns.get ⟨i, hi⟩).re s ≠ [] →
      findRule patterns s =
        ((runRe (patterns.get ⟨i, hi⟩).re s).head?).map
          (fun m => (patterns.get ⟨i, hi⟩, m.2))) :=
  ⟨rfl, findRule_first patterns⟩

/-- C4 witness: "copy a.txt to b" matches no rule before the COPY rule
(index 14) and matches COPY, so the parse loop returns the COPY rule's
match, per the theorem applied there. -/
theorem C4_first_match_wins_witness :
    findRule patterns ("copy a.txt to b".data) =
      ((runRe (patterns.get ⟨14, by decide⟩).re
          ("copy a.txt to b".data)).head?).map
        (fun m => (patterns.get ⟨14, by decide⟩, m.2)) :=
  C4_first_match_wins.2 ("copy a.txt to b".data) 14 (by decide) (by decide)
    (by decide)

/-! ### Metatheory of the matcher -/

theorem mem_splitsGreedy {p : Char → Bool} : ∀ {s pre rest : Str},
    (pre, rest) ∈ splitsGreedy p s ↔ s = pre ++ rest ∧ pre.all p = true := by
  intro s
  induction s with
  | nil =>
      intro pre rest
      simp only [splitsGreedy, List.mem_singleton, Prod.mk.injEq]
      constructor
      · rintro ⟨rfl, rfl⟩
        simp
      · rintro ⟨h1, h2⟩
        cases pre with
        | nil => simp_all
        | cons c cs => simp at h1
  | cons c s ih =>
      intro pre rest
      by_cases hc : p c = true
      · simp only [splitsGreedy, hc, if_true, List.mem_append,
          List.mem_map, List.mem_singleton, Prod.mk.injEq]
        constructor
        · rintro (⟨⟨pre2, rest2⟩, hm, heq1, heq2⟩ | ⟨rfl, rfl⟩)
          · obtain ⟨hs, hall⟩ := ih.mp hm
            subst heq1
            subst heq2
            simp [hs, hall, hc]
          · simp
        · rintro ⟨h1, h2⟩
          cases pre with
          | nil =>
              right
              simp_all
          | cons d pre2 =>
              left
              simp only [List.cons_append, List.cons.injEq] at h1
              obtain ⟨rfl, hs⟩ := h1
              simp only [List.all_cons, hc, Bool.true_and] at h2
              exact ⟨(pre2, rest), ih.mpr ⟨hs, h2⟩, rfl, rfl⟩
      · simp only [splitsGreedy, hc, if_false, Bool.false_eq_true,
          List.mem_singleton, Prod.mk.injEq]
        constructor
        · rintro ⟨rfl, rfl⟩
          simp
        · rintro ⟨h1, h2⟩
          cases pre with
          | nil => simp_all
          | cons d pre2 =>
              simp only [List.cons_append, List.cons.injEq] at h1
              obtain ⟨rfl, hs⟩ := h1
              simp [List.all_cons] at h2
              exact absurd h2.1 (by simpa using hc)

theorem runRe_suffix : ∀ (r : Regex) {s : Str} {x : Str × Caps},
    x ∈ runRe r s → x.1 <:+ s := by
  intro r
  induction r with
  | lit w =>
      intro s x hx
      simp only [runRe] at hx
      split at hx
      · simp only [List.mem_singleton] at hx
        subst hx
        exact List.drop_suffix _ _
      · simp at hx
  | star p =>
      intro s x hx
      simp only [runRe, List.mem_map] at hx
      obtain ⟨⟨pre, rest⟩, hm, rfl⟩ := hx
      obtain ⟨hs, -⟩ := mem_splitsGreedy.mp hm
      exact ⟨pre, hs.symm⟩
  | plus p =>
      intro s x hx
      simp only [runRe, List.mem_map, List.mem_filter] at hx
      obtain ⟨⟨pre, rest⟩, ⟨hm, -⟩, rfl⟩ := hx
      obtain ⟨hs, -⟩ := mem_splitsGreedy.mp hm
      exact ⟨pre, hs.symm⟩
  | plusLazy p =>
      intro s x hx
      simp only [runRe, List.mem_map, List.mem_reverse, List.mem_filter] at hx
      obtain ⟨⟨pre, rest⟩, ⟨hm, -⟩, rfl⟩ := hx
      obtain ⟨hs, -⟩ := mem_splitsGreedy.mp hm
      exact ⟨pre, hs.symm⟩
  | opt r ihr =>
      intro s x hx
      simp only [runRe, List.mem_append, List.mem_singleton] at hx
      rcases hx with hx | rfl
      · exact ihr hx
      · exact List.suffix_refl _
  | alt a b iha ihb =>
      intro s x hx
      simp only [runRe, List.mem_append] at hx
      rcases hx with hx | hx
      · exact iha hx
      · exact ihb hx
  | seq a b iha ihb =>
      intro s x hx
      simp only [runRe, List.mem_flatMap, List.mem_map] at hx
      obtain ⟨m, hm, y, hy, rfl⟩ := hx
      have h1 : y.1 <:+ m.1 := ihb hy
      have h2 : m.1 <:+ s := iha hm
      exact h1.trans h2
  | cap n r ihr =>
      intro s x hx
      simp only [runRe, List.mem_map] at hx
      obtain ⟨y, hy, rfl⟩ := hx
      have h1 : y.1 <:+ s := ihr hy
      exact h1
  | eos =>
      intro s x hx
      simp only [runRe] at hx
      split at hx
      · simp only [List.mem_singleton] at hx
        subst hx
        exact List.suffix_refl _
      · simp at hx

theorem runRe_nullable : ∀ (r : Regex) {s : Str} {caps : Caps},
    (s, caps) ∈ runRe r s → nullable r = true := by
  intro r
  induction r with
  | lit w =>
      intro s caps hx
      simp only [runRe] at hx
      split at hx
      · rename_i hpre
        simp only [List.mem_singleton, Prod.mk.injEq] at hx
        have hle : w.length ≤ s.length :=
          (List.isPrefixOf_iff_prefix.mp hpre).length_le
        have hlen := congrArg List.length hx.1
        rw [List.length_drop] at hlen
        have : w.length = 0 := by omega
        simp [nullable, List.eq_nil_of_length_eq_zero this]
      · simp at hx
  | star p => intro s caps hx; rfl
  | plus p =>
      intro s caps hx
      simp only [runRe, List.mem_map, List.mem_filter] at hx
      obtain ⟨⟨pre, rest⟩, ⟨hm, hne⟩, heq⟩ := hx
      obtain ⟨hs, -⟩ := mem_splitsGreedy.mp hm
      simp only [Prod.mk.injEq] at heq
      have hrs : rest = s := heq.1
      subst hrs
      have hp0 : pre.length = 0 := by
        have h2 := congrArg List.length hs
        simp only [List.length_append] at h2
        omega
      simp [List.eq_nil_of_length_eq_zero hp0] at hne
  | plusLazy p =>
      intro s caps hx
      simp only [runRe, List.mem_map, List.mem_reverse, List.mem_filter] at hx
      obtain ⟨⟨pre, rest⟩, ⟨hm, hne⟩, heq⟩ := hx
      obtain ⟨hs, -⟩ := mem_splitsGreedy.mp hm
      simp only [Prod.mk.injEq] at heq
      have hrs : rest = s := heq.1
      subst hrs
      have hp0 : pre.length = 0 := by
        have h2 := congrArg List.length hs
        simp only [List.length_append] at h2
        omega
      simp [List.eq_nil_of_length_eq_zero hp0] at hne
  | opt r ihr => intro s caps hx; rfl
  | alt a b iha ihb =>
      intro s caps hx
      simp only [runRe, List.mem_append] at hx
      rcases hx with hx | hx
      · simp [nullable, iha hx]
      · simp [nullable, ihb hx]
  | seq a b iha ihb =>
      intro s caps hx
      simp only [runRe, List.mem_flatMap, List.mem_map] at hx
      obtain ⟨⟨m1, m2⟩, hm, ⟨y1, y2⟩, hy, heq⟩ := hx
      simp only [Prod.mk.injEq] at heq
      rw [heq.1] at hy
      have hsm : m1 <:+ s := runRe_suffix a hm
      have hsy : s <:+ m1 := runRe_suffix b hy
      have hms : m1 = s :=
        List.IsSuffix.eq_of_length hsm
          (Nat.le_antisymm hsm.length_le hsy.length_le)
      rw [hms] at hm hy
      simp [nullable, iha hm, ihb hy]
  | cap n r ihr =>
      intro s caps hx
      simp only [runRe, List.mem_map] at hx
      obtain ⟨⟨y1, y2⟩, hy, heq⟩ := hx
      simp only [Prod.mk.injEq] at heq
      rw [heq.1] at hy
      exact ihr hy
  | eos => intro s caps hx; rfl

theorem runRe_firstOK : ∀ (r : Regex) {c : Char} {t : Str} {x : Str × Caps},
    x ∈ runRe r (c :: t) → x.1 = c :: t ∨ firstOK r c = true := by
  intro r
  induction r with
  | lit w =>
      intro c t x hx
      simp only [runRe] at hx
      split at hx
      · rename_i hpre
        simp only [List.mem_singleton] at hx
        cases w with
        | nil =>
            subst hx
            left
            rfl
        | cons d w2 =>
            right
            rw [List.isPrefixOf_iff_prefix] at hpre
            obtain ⟨t2, ht⟩ := hpre
            simp only [List.cons_append, List.cons.injEq] at ht
            simp [firstOK, ht.1]
      · simp at hx
  | star p =>
      intro c t x hx
      simp only [runRe, List.mem_map] at hx
      obtain ⟨⟨pre, rest⟩, hm, rfl⟩ := hx
      obtain ⟨hs, hall⟩ := mem_splitsGreedy.mp hm
      cases pre with
      | nil => left; simpa using hs.symm
      | cons d pre2 =>
          right
          simp only [List.cons_append, List.cons.injEq] at hs
          simp only [List.all_cons, Bool.and_eq_true] at hall
          simp [firstOK, hs.1, hall.1]
  | plus p =>
      intro c t x hx
      simp only [runRe, List.mem_map, List.mem_filter] at hx
      obtain ⟨⟨pre, rest⟩, ⟨hm, -⟩, rfl⟩ := hx
      obtain ⟨hs, hall⟩ := mem_splitsGreedy.mp hm
      cases pre with
      | nil => left; simpa using hs.symm
      | cons d pre2 =>
          right
          simp only [List.cons_append, List.cons.injEq] at hs
          simp only [List.all_cons, Bool.and_eq_true] at hall
          simp [firstOK, hs.1, hall.1]
  | plusLazy p =>
      intro c t x hx
      simp only [runRe, List.mem_map, List.mem_reverse, List.mem_filter] at hx
      obtain ⟨⟨pre, rest⟩, ⟨hm, -⟩, rfl⟩ := hx
      obtain ⟨hs, hall⟩ := mem_splitsGreedy.mp hm
      cases pre with
      | nil => left; simpa using hs.symm
      | cons d pre2 =>
          right
          simp only [List.cons_append, List.cons.injEq] at hs
          simp only [List.all_cons, Bool.and_eq_true] at hall
          simp [firstOK, hs.1, hall.1]
  | opt r ihr =>
      intro c t x hx
      simp only [runRe, List.mem_append, List.mem_singleton] at hx
      rcases hx with hx | rfl
      · rcases ihr hx with h | h
        · exact Or.inl h
        · exact Or.inr (by simpa [firstOK] using h)
      · left; rfl
  | alt a b iha ihb =>
      intro c t x hx
      simp only [runRe, List.mem_append] at hx
      rcases hx with hx | hx
      · rcases iha hx with h | h
        · exact Or.inl h
        · exact Or.inr (by simp [firstOK, h])
      · rcases ihb hx with h | h
        · exact Or.inl h
        · exact Or.inr (by simp [firstOK, h])
  | seq a b iha ihb =>
      intro c t x hx
      simp only [runRe, List.mem_flatMap, List.mem_map] at hx
      obtain ⟨m, hm, y, hy, heq⟩ := hx
      have hx1 : x.1 = y.1 := by
        have := congrArg Prod.fst heq
        simpa using this.symm
      rcases iha hm with h1 | h1
      · obtain ⟨m1, m2⟩ := m
        simp only at h1
        subst h1
        rcases ihb hy with h2 | h2
        · left; rw [hx1, h2]
        · right
          have hna : nullable a = true := runRe_nullable a hm
          simp [firstOK, hna, h2]
      · right
        simp [firstOK, h1]
  | cap n r ihr =>
      intro c t x hx
      simp only [runRe, List.mem_map] at hx
      obtain ⟨y, hy, heq⟩ := hx
      have hx1 : x.1 = y.1 := by
        have := congrArg Prod.fst heq
        simpa using this.symm
      rcases ihr hy with h | h
      · left; rw [hx1, h]
      · right; simpa [firstOK] using h
  | eos =>
      intro c t x hx
      simp [runRe] at hx

theorem runRe_kill : ∀ (r : Regex), nullable r = false → ∀ {c : Char},
    firstOK r c = false → ∀ {t : Str}, runRe r (c :: t) = [] := by
  intro r
  induction r with
  | lit w =>
      intro hn c hf t
      cases w with
      | nil => simp [nullable] at hn
      | cons d w2 =>
          have hdc : (d = c) = False := by
            simpa [firstOK] using hf
          simp only [runRe]
          rw [if_neg]
          simp only [List.isPrefixOf_iff_prefix]
          intro hpre
          obtain ⟨t2, ht⟩ := hpre
          simp only [List.cons_append, List.cons.injEq] at ht
          exact hdc ▸ ht.1
  | star p => intro hn; simp [nullable] at hn
  | plus p =>
      intro hn c hf t
      have hp : p c = false := by simpa [firstOK] using hf
      simp [runRe, splitsGreedy, hp]
  | plusLazy p =>
      intro hn c hf t
      have hp : p c = false := by simpa [firstOK] using hf
      simp [runRe, splitsGreedy, hp]
  | opt r ihr => intro hn; simp [nullable] at hn
  | alt a b iha ihb =>
      intro hn c hf t
      simp only [nullable, Bool.or_eq_false_iff] at hn
      simp only [firstOK, Bool.or_eq_false_iff] at hf
      simp [runRe, iha hn.1 hf.1, ihb hn.2 hf.2]
  | seq a b iha ihb =>
      intro hn c hf t
      simp only [nullable, Bool.and_eq_false_iff] at hn
      simp only [firstOK, Bool.or_eq_false_iff, Bool.and_eq_false_iff] at hf
      rw [runRe]
      rw [List.flatMap_eq_nil_iff]
      intro m hm
      rcases runRe_firstOK a hm with h1 | h1
      · obtain ⟨m1, m2⟩ := m
        simp only at h1
        subst h1
        have hna : nullable a = true := runRe_nullable a hm
        have hnb : nullable b = false := by
          rcases hn with hn | hn
          · rw [hna] at hn; cases hn
          · exact hn
        have hfb : firstOK b c = false := by
          rcases hf.2 with h | h
          · rw [hna] at h; cases h
          · exact h
        simp [ihb hnb hfb]
      · rw [h1] at hf
        simp at hf
  | cap n r ihr =>
      intro hn c hf t
      simp only [nullable] at hn
      simp only [firstOK] at hf
      simp [runRe, ihr hn hf]
  | eos => intro hn; simp [nullable] at hn

/-! ### Evaluation lemmas for the filler prefix -/

theorem runRe_lit_self (w rest : Str) : runRe (.lit w) (w ++ rest) = [(rest, [])] := by
  simp only [runRe]
  rw [if_pos (List.isPrefixOf_iff_prefix.mpr ⟨rest, rfl⟩), List.drop_left]

theorem runRe_lit_nil (s : Str) : runRe (.lit []) s = [(s, [])] := by
  simp only [runRe]
  rw [if_pos (List.isPrefixOf_iff_prefix.mpr (List.nil_prefix))]
  rfl

theorem runRe_lit_not {w s : Str} (h : w.isPrefixOf s = false) :
    runRe (.lit w) s = [] := by
  simp [runRe, h]

theorem runRe_star_id {p : Char → Bool} {s : Str}
    (h : ∀ d t', s = d :: t' → p d = false) : runRe (.star p) s = [(s, [])] := by
  cases s with
  | nil => rfl
  | cons c t => simp [runRe, splitsGreedy, h c t rfl]

theorem runRe_plus_single {p : Char → Bool} {c : Char} {u : Str}
    (hc : p c = true) (hu : ∀ d t', u = d :: t' → p d = false) :
    runRe (.plus p) (c :: u) = [(u, [])] := by
  have hsp : splitsGreedy p u = [([], u)] := by
    cases u with
    | nil => rfl
    | cons d t => simp [splitsGreedy, hu d t rfl]
  simp [runRe, splitsGreedy, hc, hsp]

theorem map_pair_nil_append (l : List (Str × Caps)) :
    l.map (fun x => (x.1, ([] : Caps) ++ x.2)) = l := by
  have hfun : (fun x : Str × Caps => (x.1, ([] : Caps) ++ x.2)) = fun x => x := rfl
  rw [hfun, List.map_id']

theorem runRe_seq_single {a b : Regex} {s m : Str}
    (ha : runRe a s = [(m, [])]) : runRe (.seq a b) s = runRe b m := by
  show (runRe a s).flatMap _ = _
  rw [ha]
  simp only [List.flatMap_cons, List.flatMap_nil, List.append_nil]
  exact map_pair_nil_append _

theorem runRe_seq_double {a b : Regex} {s m1 m2 : Str}
    (ha : runRe a s = [(m1, []), (m2, [])]) :
    runRe (.seq a b) s = runRe b m1 ++ runRe b m2 := by
  show (runRe a s).flatMap _ = _
  rw [ha]
  simp only [List.flatMap_cons, List.flatMap_nil, List.append_nil]
  rw [map_pair_nil_append, map_pair_nil_append]

theorem runRe_opt_def (r : Regex) (s : Str) :
    runRe (.opt r) s = runRe r s ++ [(s, [])] := rfl

/-- After "please " the whitespace run `\s+` consumes exactly the one
space when the remainder does not begin with whitespace. -/
theorem runRe_ws1_space {u : Str}
    (hu : ∀ d t', u = d :: t' → isSpacePy d = false) :
    runRe ws1 (' ' :: u) = [(u, [])] :=
  runRe_plus_single rfl hu

/-- The filler group `(?:please\s+)?` on "please " ++ u: the present
branch consumes the filler, the empty branch stays put. -/
theorem runRe_pleaseOpt_please {u : Str}
    (hu : ∀ d t', u = d :: t' → isSpacePy d = false) :
    runRe pleaseOpt ("please ".data ++ u) =
      [(u, []), ("please ".data ++ u, [])] := by
  have h1 : runRe (.lit "please".data) ("please ".data ++ u) =
      [(' ' :: u, [])] := runRe_lit_self "please".data (' ' :: u)
  show runRe (.seq (.lit "please".data) (.seq ws1 (.lit []))) _ ++ [(_, [])] = _
  rw [runRe_seq_single h1, runRe_seq_single (runRe_ws1_space hu), runRe_lit_nil]
  rfl

/-- The filler group on an utterance that does not begin with "please":
only the empty branch survives. -/
theorem runRe_pleaseOpt_plain {u : Str}
    (hp : "please".data.isPrefixOf u = false) :
    runRe pleaseOpt u = [(u, [])] := by
  show runRe (.seq (.lit "please".data) (.seq ws1 (.lit []))) u ++ [(u, [])] = _
  have : runRe (.seq (.lit "please".data) (.seq ws1 (.lit []))) u = [] := by
    show (runRe (.lit "please".data) u).flatMap _ = _
    rw [runRe_lit_not hp]
    rfl
  rw [this]
  rfl

theorem firstOK_seq_lit_nil {body : Regex} {c : Char}
    (hfb : firstOK body c = false) :
    firstOK (.seq body (.lit [])) c = false := by
  simp [firstOK, hfb]

theorem nullable_seq_lit_nil {body : Regex} (hnb : nullable body = false) :
    nullable (.seq body (.lit [])) = false := by
  simp [nullable, hnb]

/-- The body of a rule whose first character cannot be 'p' never matches
the suffix starting at "please ...". -/
theorem runRe_body_kill_please {body : Regex} {t : Str}
    (hnb : nullable body = false) (hfb : firstOK body 'p' = false) :
    runRe (.seq body (.lit [])) ('p' :: t) = [] :=
  runRe_kill _ (nullable_seq_lit_nil hnb) (firstOK_seq_lit_nil hfb)

/-- A polite rule pattern `^\s*(?:please\s+)?<body>` on "please " ++ u
matches exactly as `<body>` does on u. -/
theorem runRe_polite_please {body : Regex} {u : Str}
    (hnb : nullable body = false) (hfb : firstOK body 'p' = false)
    (hu : ∀ d t', u = d :: t' → isSpacePy d = false) :
    runRe (catRe [ws0, pleaseOpt, body]) ("please ".data ++ u) =
      runRe (.seq body (.lit [])) u := by
  have hw0 : runRe ws0 ("please ".data ++ u) =
      [("please ".data ++ u, [])] := by
    apply runRe_star_id
    intro d t' h
    have hd : d = 'p' := by
      have : 'p' :: ("lease ".data ++ u) = d :: t' := h
      exact (List.cons.injEq _ _ _ _ ▸ this).1.symm
    rw [hd]
    rfl
  show runRe (.seq ws0 (.seq pleaseOpt (.seq body (.lit [])))) _ = _
  rw [runRe_seq_single hw0, runRe_seq_double (runRe_pleaseOpt_please hu)]
  rw [show ("please ".data ++ u) = 'p' :: ("lease ".data ++ u) from rfl,
    runRe_body_kill_please hnb hfb, List.append_nil]

/-- A polite rule pattern on a filler-free utterance matches exactly as
its body does. -/
theorem runRe_polite_plain {body : Regex} {u : Str}
    (hu : ∀ d t', u = d :: t' → isSpacePy d = false)
    (hp : "please".data.isPrefixOf u = false) :
    runRe (catRe [ws0, pleaseOpt, body]) u = runRe (.seq body (.lit [])) u := by
  have hw0 : runRe ws0 u = [(u, [])] := runRe_star_id hu
  show runRe (.seq ws0 (.seq pleaseOpt (.seq body (.lit [])))) _ = _
  rw [runRe_seq_single hw0, runRe_seq_single (runRe_pleaseOpt_plain hp)]

/-- Prefixing "please " preserves a polite rule's match list. -/
theorem runRe_polite_eq {body : Regex} {u : Str}
    (hnb : nullable body = false) (hfb : firstOK body 'p' = false)
    (hu : ∀ d t', u = d :: t' → isSpacePy d = false)
    (hp : "please".data.isPrefixOf u = false) :
    runRe (catRe [ws0, pleaseOpt, body]) ("please ".data ++ u) =
      runRe (catRe [ws0, pleaseOpt, body]) u :=
  (runRe_polite_please hnb hfb hu).trans (runRe_polite_plain hu hp).symm

theorem isPrefixOf_false_of_head_ne {a b : Char} {as bs : Str} (h : a ≠ b) :
    (a :: as).isPrefixOf (b :: bs) = false := by
  rw [← Bool.not_eq_true, List.isPrefixOf_iff_prefix]
  intro hpre
  obtain ⟨t, ht⟩ := hpre
  simp only [List.cons_append, List.cons.injEq] at ht
  exact h ht.1

/-- The OPEN_APP filler group on "please " ++ u. -/
theorem runRe_politeKindlyOpt_please {u : Str}
    (hu : ∀ d t', u = d :: t' → isSpacePy d = false) :
    runRe politeKindlyOpt ("please ".data ++ u) =
      [(u, []), ("please ".data ++ u, [])] := by
  have h1 : runRe (.lit "please".data) ("please ".data ++ u) =
      [(' ' :: u, [])] := runRe_lit_self "please".data (' ' :: u)
  have h2 : runRe (catRe [wlit "please", ws1]) ("please ".data ++ u) =
      [(u, [])] := by
    show runRe (.seq (.lit "please".data) (.seq ws1 (.lit []))) _ = _
    rw [runRe_seq_single h1, runRe_seq_single (runRe_ws1_space hu), runRe_lit_nil]
  have h3 : runRe (catRe [wlit "would", ws1, wlit "you", ws1, wlit "kindly", ws1])
      ("please ".data ++ u) = [] := by
    show (runRe (.lit "would".data) _).flatMap _ = _
    rw [runRe_lit_not (show ("would".data).isPrefixOf ("please ".data ++ u) =
      false from isPrefixOf_false_of_head_ne (by decide))]
    rfl
  show (runRe (catRe [wlit "please", ws1]) _ ++
      runRe (catRe [wlit "would", ws1, wlit "you", ws1, wlit "kindly", ws1]) _)
      ++ [(_, [])] = _
  rw [h2, h3]
  rfl

/-- The OPEN_APP filler group on a filler-free utterance. -/
theorem runRe_politeKindlyOpt_plain {u : Str}
    (hp : "please".data.isPrefixOf u = false)
    (hw : "would".data.isPrefixOf u = false) :
    runRe politeKindlyOpt u = [(u, [])] := by
  have h2 : runRe (catRe [wlit "please", ws1]) u = [] := by
    show (runRe (.lit "please".data) _).flatMap _ = _
    rw [runRe_lit_not hp]
    rfl
  have h3 : runRe (catRe [wlit "would", ws1, wlit "you", ws1, wlit "kindly", ws1])
      u = [] := by
    show (runRe (.lit "would".data) _).flatMap _ = _
    rw [runRe_lit_not hw]
    rfl
  show (runRe (catRe [wlit "please", ws1]) _ ++
      runRe (catRe [wlit "would", ws1, wlit "you", ws1, wlit "kindly", ws1]) _)
      ++ [(_, [])] = _
  rw [h2, h3]
  rfl

/-- Prefixing "please " preserves the OPEN_APP rule's match list. -/
theorem runRe_politeKindly_eq {body : Regex} {u : Str}
    (hnb : nullable body = false) (hfb : firstOK body 'p' = false)
    (hu : ∀ d t', u = d :: t' → isSpacePy d = false)
    (hp : "please".data.isPrefixOf u = false)
    (hw : "would".data.isPrefixOf u = false) :
    runRe (catRe [ws0, politeKindlyOpt, body]) ("please ".data ++ u) =
      runRe (catRe [ws0, politeKindlyOpt, body]) u := by
  have hw0p : runRe ws0 ("please ".data ++ u) =
      [("please ".data ++ u, [])] := by
    apply runRe_star_id
    intro d t' h
    have hd : d = 'p' := by
      have h2 : 'p' :: ("lease ".data ++ u) = d :: t' := h
      exact (List.cons.injEq _ _ _ _ ▸ h2).1.symm
    rw [hd]
    rfl
  have hw0u : runRe ws0 u = [(u, [])] := runRe_star_id hu
  show runRe (.seq ws0 (.seq politeKindlyOpt (.seq body (.lit [])))) _ =
    runRe (.seq ws0 (.seq politeKindlyOpt (.seq body (.lit [])))) _
  rw [runRe_seq_single hw0p, runRe_seq_single hw0u,
    runRe_seq_double (runRe_politeKindlyOpt_please hu),
    runRe_seq_single (runRe_politeKindlyOpt_plain hp hw)]
  rw [show ("please ".data ++ u) = 'p' :: ("lease ".data ++ u) from rfl,
    runRe_body_kill_please hnb hfb, List.append_nil]

/-- Prefixing "please " preserves the LIST rule's match list, provided its
unguarded second alternative does not match the utterance. -/
theorem runRe_listRule_eq {u : Str}
    (hu : ∀ d t', u = d :: t' → isSpacePy d = false)
    (hp : "please".data.isPrefixOf u = false)
    (hlb : runRe bodyListB u = []) :
    runRe (.alt (catRe [ws0, pleaseOpt, bodyListA]) bodyListB)
        ("please ".data ++ u) =
      runRe (.alt (catRe [ws0, pleaseOpt, bodyListA]) bodyListB) u := by
  show runRe (catRe [ws0, pleaseOpt, bodyListA]) _ ++ runRe bodyListB _ =
    runRe (catRe [ws0, pleaseOpt, bodyListA]) _ ++ runRe bodyListB _
  rw [runRe_polite_eq (by decide) (by decide) hu hp, hlb]
  rw [show ("please ".data ++ u) = 'p' :: ("lease ".data ++ u) from rfl,
    runRe_kill bodyListB (by decide) (by decide)]

theorem findRule_congr : ∀ (rs : List Rule) {s1 s2 : Str},
    (∀ r ∈ rs, runRe r.re s1 = runRe r.re s2) →
    findRule rs s1 = findRule rs s2 := by
  intro rs
  induction rs with
  | nil => intro s1 s2 h; rfl
  | cons r rs ih =>
      intro s1 s2 h
      have h0 := h r (List.mem_cons_self r rs)
      show (match (runRe r.re s1).head? with
            | some m => some (r, m.2)
            | none => findRule rs s1) =
          (match (runRe r.re s2).head? with
            | some m => some (r, m.2)
            | none => findRule rs s2)
      rw [h0]
      cases hm : (runRe r.re s2).head? with
      | some m => rfl
      | none => exact ih (fun r2 hr => h r2 (List.mem_cons_of_mem _ hr))



/-- Prefixing "please " preserves every rule's match list (the LIST rule
needs its unguarded second alternative not to match on its own). -/
theorem runRe_patterns_eq {u : Str}
    (hu : ∀ d t', u = d :: t' → isSpacePy d = false)
    (hp : "please".data.isPrefixOf u = false)
    (hw : "would".data.isPrefixOf u = false)
    (hlb : runRe bodyListB u = []) :
    ∀ r ∈ patterns, runRe r.re ("please ".data ++ u) = runRe r.re u := by
  intro r hr
  simp only [patterns, List.mem_cons, List.not_mem_nil, or_false] at hr
  rcases hr with rfl|rfl|rfl|rfl|rfl|rfl|rfl|rfl|rfl|rfl|rfl|rfl|rfl|rfl|rfl|rfl|rfl|rfl|rfl|rfl|rfl|rfl|rfl|rfl|rfl|rfl|rfl|rfl
  · simp only [politeRule]
    refine runRe_polite_eq ?_ ?_ hu hp <;> decide
  · simp only [politeRule]
    refine runRe_polite_eq ?_ ?_ hu hp <;> decide
  · exact runRe_listRule_eq hu hp hlb
  · simp only [politeRule]
    refine runRe_polite_eq ?_ ?_ hu hp <;> decide
  · simp only [politeRule]
    refine runRe_polite_eq ?_ ?_ hu hp <;> decide
  · simp only [politeRule]
    refine runRe_polite_eq ?_ ?_ hu hp <;> decide
  · simp only [politeRule]
    refine runRe_polite_eq ?_ ?_ hu hp <;> decide
  · simp only [politeRule]
    refine runRe_polite_eq ?_ ?_ hu hp <;> decide
  · simp only [politeRule]
    refine runRe_polite_eq ?_ ?_ hu hp <;> decide
  · refine runRe_politeKindly_eq ?_ ?_ hu hp hw <;> decide
  · simp only [politeRule]
    refine runRe_polite_eq ?_ ?_ hu hp <;> decide
  · simp only [politeRule]
    refine runRe_polite_eq ?_ ?_ hu hp <;> decide
  · simp only [politeRule]
    refine runRe_polite_eq ?_ ?_ hu hp <;> decide
  · simp only [politeRule]
    refine runRe_polite_eq ?_ ?_ hu hp <;> decide
  · simp only [politeRule]
    refine runRe_polite_eq ?_ ?_ hu hp <;> decide
  · simp only [politeRule]
    refine runRe_polite_eq ?_ ?_ hu hp <;> decide
  · simp only [politeRule]
    refine runRe_polite_eq ?_ ?_ hu hp <;> decide
  · simp only [politeRule]
    refine runRe_polite_eq ?_ ?_ hu hp <;> decide
  · simp only [politeRule]
    refine runRe_polite_eq ?_ ?_ hu hp <;> decide
  · simp only [politeRule]
    refine runRe_polite_eq ?_ ?_ hu hp <;> decide
  · simp only [politeRule]
    refine runRe_polite_eq ?_ ?_ hu hp <;> decide
  · simp only [politeRule]
    refine runRe_polite_eq ?_ ?_ hu hp <;> decide
  · simp only [politeRule]
    refine runRe_polite_eq ?_ ?_ hu hp <;> decide
  · simp only [politeRule]
    refine runRe_polite_eq ?_ ?_ hu hp <;> decide
  · simp only [politeRule]
    refine runRe_polite_eq ?_ ?_ hu hp <;> decide
  · simp only [politeRule]
    refine runRe_polite_eq ?_ ?_ hu hp <;> decide
  · simp only [politeRule]
    refine runRe_polite_eq ?_ ?_ hu hp <;> decide
  · simp only [politeRule]
    refine runRe_polite_eq ?_ ?_ hu hp <;> decide

theorem dropWhile_eq_self_of_trim {u : Str} (h : trimPy u = u) :
    u.dropWhile isSpacePy = u := by
  have l2 : (trimPy u).length ≤ (u.dropWhile isSpacePy).length := by
    unfold trimPy
    calc (((u.dropWhile isSpacePy).reverse.dropWhile isSpacePy).reverse).length
        = ((u.dropWhile isSpacePy).reverse.dropWhile isSpacePy).length :=
          List.length_reverse _
      _ ≤ (u.dropWhile isSpacePy).reverse.length :=
          (List.dropWhile_suffix _).length_le
      _ = (u.dropWhile isSpacePy).length := List.length_reverse _
  rw [h] at l2
  have l1 : (u.dropWhile isSpacePy).length ≤ u.length :=
    (List.dropWhile_suffix _).length_le
  exact List.IsSuffix.eq_of_length (List.dropWhile_suffix _) (by omega)

theorem dropWhile_reverse_eq_of_trim {u : Str} (h : trimPy u = u) :
    u.reverse.dropWhile isSpacePy = u.reverse := by
  have h1 := dropWhile_eq_self_of_trim h
  have h2 : trimPy u = (u.reverse.dropWhile isSpacePy).reverse := by
    unfold trimPy
    rw [h1]
  rw [h] at h2
  have h3 := congrArg List.reverse h2
  rw [List.reverse_reverse] at h3
  exact h3.symm

theorem head_not_space_of_dropWhile {u : Str}
    (h : u.dropWhile isSpacePy = u) :
    ∀ d t', u = d :: t' → isSpacePy d = false := by
  intro d t' he
  subst he
  cases hdd : isSpacePy d with
  | false => rfl
  | true =>
      rw [List.dropWhile_cons, if_pos hdd] at h
      have hlen := congrArg List.length h
      have hle : (t'.dropWhile isSpacePy).length ≤ t'.length :=
        (List.dropWhile_suffix _).length_le
      simp only [List.length_cons] at hlen
      omega

theorem trimPy_please_append {u : Str} (hne : u ≠ [])
    (h2 : u.reverse.dropWhile isSpacePy = u.reverse) :
    trimPy ("please ".data ++ u) = "please ".data ++ u := by
  unfold trimPy
  have hd1 : ("please ".data ++ u).dropWhile isSpacePy =
      "please ".data ++ u := by
    rw [show ("please ".data ++ u) = 'p' :: ("lease ".data ++ u) from rfl]
    rw [List.dropWhile_cons, if_neg (by decide)]
  rw [hd1, List.reverse_append]
  have hd2 : (u.reverse ++ ("please ".data).reverse).dropWhile isSpacePy =
      u.reverse ++ ("please ".data).reverse := by
    cases hru : u.reverse with
    | nil =>
        exfalso
        apply hne
        have h4 := congrArg List.reverse hru
        simpa using h4
    | cons d t =>
        have hd : isSpacePy d = false := by
          rw [hru] at h2
          cases hdd : isSpacePy d with
          | false => rfl
          | true =>
              rw [List.dropWhile_cons, if_pos hdd] at h2
              have hlen := congrArg List.length h2
              have hle : (t.dropWhile isSpacePy).length ≤ t.length :=
                (List.dropWhile_suffix _).length_le
              simp only [List.length_cons] at hlen
              omega
        rw [List.cons_append, List.dropWhile_cons, if_neg (by simp [hd])]
  rw [hd2, List.reverse_append, List.reverse_reverse, List.reverse_reverse]

theorem lowerStr_please_append {u : Str} (hlow : lowerStr u = u) :
    lowerStr ("please ".data ++ u) = "please ".data ++ u := by
  unfold lowerStr at hlow ⊢
  rw [List.map_append, hlow]
  rfl

/-- C9 counterexample: 'would you kindly' is accepted only by the
OPEN_APP rule, so prefixing it to the EXIT utterance makes parsing fail
instead of yielding the same intent as "exit". -/
theorem C9_filler_counterexample :
    parseS "would you kindly exit" = .unknown "would you kindly exit" ∧
    parseS "exit" = .exitI := by
  constructor
  · decide
  · decide

/-- C9 (amended): every rule accepts the optional leading filler
"please" and ignores it — for any nonempty, lowercased, trimmed utterance
that does not itself start with a filler word, matches some rule, and is
not one of the unguarded second-alternative LIST phrasings, prefixing
"please " yields the same intent with the same captured fields; the
filler "would you kindly" is accepted only by the OPEN_APP rule (it works
before "open calc" but not before other commands). -/
theorem C9_please_filler :
    (∀ u : Str, u ≠ [] → lowerStr u = u → trimPy u = u →
      "please".data.isPrefixOf u = false →
      "would".data.isPrefixOf u = false →
      runRe bodyListB u = [] →
      (findRule patterns u).isSome = true →
      parseCmd ("please ".data ++ u) = parseCmd u) ∧
    parseS "would you kindly open calc" = .openApp "calc" ∧
    parseS "would you kindly touch x" = .unknown "would you kindly touch x" := by
  refine ⟨?_, by decide, by decide⟩
  intro u hne hlow htrim hp hw hlb hsome
  have hdw := dropWhile_eq_self_of_trim htrim
  have hrd := dropWhile_reverse_eq_of_trim htrim
  have hu := head_not_space_of_dropWhile hdw
  have htr2 := trimPy_please_append hne hrd
  have hlo2 := lowerStr_please_append hlow
  have hcong : findRule patterns ("please ".data ++ u) = findRule patterns u :=
    findRule_congr patterns (runRe_patterns_eq hu hp hw hlb)
  obtain ⟨x, hfr⟩ := Option.isSome_iff_exists.mp hsome
  obtain ⟨r, caps⟩ := x
  have e1 : parseCmd ("please ".data ++ u) = r.build caps := by
    unfold parseCmd
    rw [if_neg (show ¬((("please ".data ++ u)).isEmpty = true) from by
      rw [show ("please ".data ++ u) = 'p' :: ("lease ".data ++ u) from rfl]
      simp)]
    rw [hlo2, htr2, hcong, hfr]
  have e2 : parseCmd u = r.build caps := by
    unfold parseCmd
    rw [if_neg (show ¬(u.isEmpty = true) from by simpa using hne)]
    rw [hlow, htrim, hfr]
  rw [e1, e2]

/-- C9 witness: "please touch notes.txt" parses exactly as
"touch notes.txt", by the theorem applied to that utterance. -/
theorem C9_please_filler_witness :
    parseCmd ("please ".data ++ "touch notes.txt".data) =
      parseCmd "touch notes.txt".data :=
  C9_please_filler.1 "touch notes.txt".data (by decide) (by decide) (by decide)
    (by decide) (by decide) (by decide) (by decide)

theorem inv_runRe_seq {a b : Regex} {s xs : Str} {xc : Caps}
    (h : (xs, xc) ∈ runRe (.seq a b) s) :
    ∃ m c1 c2, (m, c1) ∈ runRe a s ∧ (xs, c2) ∈ runRe b m ∧ xc = c1 ++ c2 := by
  simp only [runRe, List.mem_flatMap, List.mem_map] at h
  obtain ⟨⟨m, c1⟩, hm, ⟨x1, c2⟩, hx, heq⟩ := h
  simp only [Prod.mk.injEq] at heq
  rw [heq.1] at hx
  exact ⟨m, c1, c2, hm, hx, heq.2.symm⟩

theorem inv_runRe_lit {w s xs : Str} {xc : Caps}
    (h : (xs, xc) ∈ runRe (.lit w) s) : s = w ++ xs ∧ xc = [] := by
  simp only [runRe] at h
  split at h
  · rename_i hp
    simp only [List.mem_singleton, Prod.mk.injEq] at h
    obtain ⟨t, ht⟩ := List.isPrefixOf_iff_prefix.mp hp
    have hxs : xs = t := by
      rw [h.1, ← ht]
      exact List.drop_left w t
    exact ⟨by rw [← ht, hxs], h.2⟩
  · simp at h

theorem inv_runRe_plus {p : Char → Bool} {s xs : Str} {xc : Caps}
    (h : (xs, xc) ∈ runRe (.plus p) s) :
    ∃ pre, pre ≠ [] ∧ s = pre ++ xs ∧ pre.all p = true ∧ xc = [] := by
  simp only [runRe, List.mem_map, List.mem_filter] at h
  obtain ⟨⟨pre, rest⟩, ⟨hm, hne⟩, heq⟩ := h
  obtain ⟨hs, hall⟩ := mem_splitsGreedy.mp hm
  simp only [Prod.mk.injEq] at heq
  refine ⟨pre, by simpa using hne, ?_, hall, heq.2.symm⟩
  rw [← heq.1]
  exact hs

theorem inv_runRe_star {p : Char → Bool} {s xs : Str} {xc : Caps}
    (h : (xs, xc) ∈ runRe (.star p) s) :
    ∃ pre, s = pre ++ xs ∧ pre.all p = true ∧ xc = [] := by
  simp only [runRe, List.mem_map] at h
  obtain ⟨⟨pre, rest⟩, hm, heq⟩ := h
  obtain ⟨hs, hall⟩ := mem_splitsGreedy.mp hm
  simp only [Prod.mk.injEq] at heq
  refine ⟨pre, ?_, hall, heq.2.symm⟩
  rw [← heq.1]
  exact hs

theorem inv_runRe_cap {n : String} {r : Regex} {s xs : Str} {xc : Caps}
    (h : (xs, xc) ∈ runRe (.cap n r) s) : ∃ c2, (xs, c2) ∈ runRe r s := by
  simp only [runRe, List.mem_map] at h
  obtain ⟨⟨x1, c2⟩, hm, heq⟩ := h
  simp only [Prod.mk.injEq] at heq
  rw [heq.1] at hm
  exact ⟨c2, hm⟩

theorem inv_runRe_eos {s : Str} {x : Str × Caps}
    (h : x ∈ runRe .eos s) : s = [] ∧ x = ([], []) := by
  simp only [runRe] at h
  split at h
  · rename_i he
    simp only [List.mem_singleton] at h
    have hs : s = [] := by simpa using he
    subst hs
    exact ⟨rfl, h⟩
  · simp at h

theorem mem_runRe_seq {a b : Regex} {s m rest : Str} {c1 c2 : Caps}
    (h1 : (m, c1) ∈ runRe a s) (h2 : (rest, c2) ∈ runRe b m) :
    (rest, c1 ++ c2) ∈ runRe (.seq a b) s := by
  simp only [runRe, List.mem_flatMap, List.mem_map]
  exact ⟨(m, c1), h1, (rest, c2), h2, rfl⟩

theorem mem_runRe_lit (w rest : Str) : (rest, ([] : Caps)) ∈ runRe (.lit w) (w ++ rest) := by
  rw [runRe_lit_self]
  exact List.mem_singleton.mpr rfl

theorem mem_runRe_plus {p : Char → Bool} {pre : Str} (rest : Str)
    (hne : pre ≠ []) (hall : pre.all p = true) :
    (rest, ([] : Caps)) ∈ runRe (.plus p) (pre ++ rest) := by
  simp only [runRe, List.mem_map, List.mem_filter]
  exact ⟨(pre, rest), ⟨mem_splitsGreedy.mpr ⟨rfl, hall⟩, by simpa using hne⟩, rfl⟩

theorem mem_runRe_star {p : Char → Bool} {pre : Str} (rest : Str)
    (hall : pre.all p = true) :
    (rest, ([] : Caps)) ∈ runRe (.star p) (pre ++ rest) := by
  simp only [runRe, List.mem_map]
  exact ⟨(pre, rest), mem_splitsGreedy.mpr ⟨rfl, hall⟩, rfl⟩

theorem mem_runRe_cap {n : String} {r : Regex} {s xs : Str} {c : Caps}
    (h : (xs, c) ∈ runRe r s) : ∃ c2, (xs, c2) ∈ runRe (.cap n r) s := by
  refine ⟨c ++ [(n, s.take (s.length - xs.length))], ?_⟩
  simp only [runRe, List.mem_map]
  exact ⟨(xs, c), h, rfl⟩

theorem mem_runRe_eos : (([] : Str), ([] : Caps)) ∈ runRe .eos [] := by
  simp [runRe]

/-- C10 counterexample: with a tab between "file" and the name, the final
explicit "open file" rule matches (its `\s+` accepts tabs) while the
generic open rule does not (its name class has only a literal space), so
the final rule does fire, and it captures "notes.txt" without the word
"file". -/
theorem C10_counterexample :
    parseS "open file\tnotes.txt" = .openFile "notes.txt" ∧
    reMatches (catRe [ws0, pleaseOpt, bodyOpenFileExplicit])
      ("open file\tnotes.txt".data) = true ∧
    reMatches (catRe [ws0, pleaseOpt, bodyOpenGeneric])
      ("open file\tnotes.txt".data) = false := by
  refine ⟨by decide, by decide, by decide⟩

/-- C10 (amended): for every utterance whose whitespace consists only of
literal spaces, a match of the final explicit "open file <name>" rule
implies a match of the earlier generic "open <name>" rule, so on such
utterances the final rule never fires; "open file notes.txt" parses to an
OPEN_FILE intent whose name retains the word "file". -/
theorem C10_generic_open_preempts :
    (∀ u : Str, (∀ c ∈ u, isSpacePy c = true → c = ' ') →
      reMatches (catRe [ws0, pleaseOpt, bodyOpenFileExplicit]) u = true →
      reMatches (catRe [ws0, pleaseOpt, bodyOpenGeneric]) u = true) ∧
    parseS "open file notes.txt" = .openFile "file notes.txt" := by
  constructor
  · intro u hsp hm
    have hne : runRe (catRe [ws0, pleaseOpt, bodyOpenFileExplicit]) u ≠ [] := by
      simpa [reMatches] using hm
    obtain ⟨⟨xs, xc⟩, hx⟩ := List.exists_mem_of_ne_nil _ hne
    obtain ⟨m1, c1, c2, hws0, hx1, -⟩ := inv_runRe_seq hx
    obtain ⟨m2, d1, d2, hplz, hx2, -⟩ := inv_runRe_seq hx1
    obtain ⟨m3, e1, e2, hbody, hx3, -⟩ := inv_runRe_seq hx2
    obtain ⟨m4, f1, f2, hopen, hb1, -⟩ := inv_runRe_seq hbody
    obtain ⟨hm2eq, -⟩ := inv_runRe_lit hopen
    obtain ⟨m5, g1, g2, hws1a, hb2, -⟩ := inv_runRe_seq hb1
    obtain ⟨sp1, hsp1ne, hm4eq, hsp1all, -⟩ := inv_runRe_plus hws1a
    obtain ⟨m6, i1, i2, hfile, hb3, -⟩ := inv_runRe_seq hb2
    obtain ⟨hm5eq, -⟩ := inv_runRe_lit hfile
    obtain ⟨m7, j1, j2, hws1b, hb4, -⟩ := inv_runRe_seq hb3
    obtain ⟨sp2, hsp2ne, hm6eq, hsp2all, -⟩ := inv_runRe_plus hws1b
    obtain ⟨m8, k1, k2, hcap, hb5, -⟩ := inv_runRe_seq hb4
    obtain ⟨k3, hplus⟩ := inv_runRe_cap hcap
    obtain ⟨nm, hnmne, hm7eq, hnmall, -⟩ := inv_runRe_plus hplus
    obtain ⟨m9, l1, l2, hws0b, hb6, -⟩ := inv_runRe_seq hb5
    obtain ⟨sp3, hm8eq, hsp3all, -⟩ := inv_runRe_star hws0b
    obtain ⟨m10, n1, n2, heos, hb7, -⟩ := inv_runRe_seq hb6
    obtain ⟨hm9nil, -⟩ := inv_runRe_eos heos
    obtain ⟨sp0, hueq, -, -⟩ := inv_runRe_star hws0
    obtain ⟨pre2, hpre2⟩ := runRe_suffix pleaseOpt hplz
    -- the segment equations
    rw [hm9nil, List.append_nil] at hm8eq
    have hm5' : m5 = ("file".data ++ sp2 ++ nm) ++ sp3 := by
      rw [hm5eq, hm6eq, hm7eq, hm8eq]
      simp [List.append_assoc]
    have hm2' : m2 =
        "open".data ++ (sp1 ++ (("file".data ++ sp2 ++ nm) ++ sp3)) := by
      rw [hm2eq, hm4eq, hm5']
    -- whitespace inside the captured region is a literal space
    have hsp2sp : ∀ c ∈ sp2, c = ' ' := by
      intro c hc
      apply hsp
      · have hc6 : c ∈ m6 := by
          rw [hm6eq]
          exact List.mem_append_left _ hc
        have hc5 : c ∈ m5 := by
          rw [hm5eq]
          exact List.mem_append_right _ hc6
        have hc4 : c ∈ m4 := by
          rw [hm4eq]
          exact List.mem_append_right _ hc5
        have hc2 : c ∈ m2 := by
          rw [hm2eq]
          exact List.mem_append_right _ hc4
        have hc1 : c ∈ m1 := by
          rw [← hpre2]
          exact List.mem_append_right _ hc2
        rw [hueq]
        exact List.mem_append_right _ hc1
      · exact List.all_eq_true.mp hsp2all c hc
    -- the generic rule's captured name
    have hnall : (("file".data ++ sp2 ++ nm)).all pathCls = true := by
      simp only [List.all_append, Bool.and_eq_true]
      refine ⟨⟨by decide, ?_⟩, hnmall⟩
      rw [List.all_eq_true]
      intro c hc
      rw [hsp2sp c hc]
      decide
    have hnne : ("file".data ++ sp2 ++ nm) ≠ [] := by simp
    -- rebuild a match of the generic rule
    have t0 : (([] : Str), ([] : Caps)) ∈ runRe (.lit []) [] := by
      rw [runRe_lit_nil]
      exact List.mem_singleton.mpr rfl
    have t1 := mem_runRe_seq mem_runRe_eos t0
    have tw : (([] : Str), ([] : Caps)) ∈ runRe ws0 sp3 := by
      have h0 := mem_runRe_star (p := isSpacePy) ([] : Str) hsp3all
      rwa [List.append_nil] at h0
    have t2 := mem_runRe_seq tw t1
    obtain ⟨capsN, hcapG⟩ :=
      mem_runRe_cap (n := "name") (mem_runRe_plus sp3 hnne hnall)
    have t3 := mem_runRe_seq hcapG t2
    have t4 := mem_runRe_seq
      (mem_runRe_plus (p := isSpacePy)
        ((("file".data ++ sp2 ++ nm)) ++ sp3) hsp1ne hsp1all) t3
    have t5 := mem_runRe_seq
      (mem_runRe_lit "open".data
        (sp1 ++ ((("file".data ++ sp2 ++ nm)) ++ sp3))) t4
    rw [← hm2'] at t5
    have t6 := mem_runRe_seq t5 t0
    have t7 := mem_runRe_seq hplz t6
    have t8 := mem_runRe_seq hws0 t7
    have : runRe (catRe [ws0, pleaseOpt, bodyOpenGeneric]) u ≠ [] :=
      List.ne_nil_of_mem t8
    simpa [reMatches] using this
  · decide
